import Mathlib

/-!
Verification development for the mlpack K-Means clustering engine
(src/mlpack/methods/kmeans/kmeans.hpp).

The repository contains only the class header `kmeans.hpp`; the bodies of
`KMeans::KMeans`, `KMeans::Cluster` and `KMeans::FastCluster` live in
`kmeans_impl.hpp`, and the default policies live in `random_partition.hpp`
and `max_variance_new_cluster.hpp`, none of which are part of the
repository snapshot.  The iterative engine below is therefore modelled from
the specification (spec.md, section 4), instantiated at the default
template arguments declared in the header:
  - DistanceMetric        = metric::SquaredEuclideanDistance,
  - InitialPartitionPolicy = RandomPartition (the spec allows a
    deterministic round-robin realisation),
  - EmptyClusterPolicy    = MaxVarianceNewCluster.
All arithmetic is exact (rationals), standing for the C++ `double`
computations.  Machine-level floating point rounding is out of scope.
-/

namespace KMeansSpec

/-- A data point: one fixed-dimension numeric vector (a column of the
`arma::mat` dataset), modelled as a list of rationals. -/
abbrev Point := List ℚ

/-- Modelled from the spec: the default DistanceMetric declared in
kmeans.hpp (`metric::SquaredEuclideanDistance`): sum of squared
componentwise differences. -/
def sqEuclid (p q : Point) : ℚ :=
  (List.zipWith (fun x y => (x - y) ^ 2) p q).sum

/-- Index in `[0, W)` minimising `f`, the lowest index winning ties
(spec tie-break policy: choose the lowest-indexed centroid). -/
def argminIdx (f : ℕ → ℚ) (W : ℕ) : ℕ :=
  (List.range W).foldl (fun best j => if f j < f best then j else best) 0

/-- Points of `data` currently assigned to cluster `j`. -/
def membersData (data : List Point) (a : List ℕ) (j : ℕ) : List Point :=
  (data.zip a).filterMap (fun pc => if pc.2 = j then some pc.1 else none)

/-- Indices of the points currently assigned to cluster `j`. -/
def memberIdxs (a : List ℕ) (j : ℕ) : List ℕ :=
  (List.range a.length).filter (fun i => a.getD i 0 = j)

/-- Componentwise sum of two points. -/
def vecAdd (p q : Point) : Point := List.zipWith (· + ·) p q

/-- Scale a point by a rational. -/
def vecScale (c : ℚ) (p : Point) : Point := p.map (fun x => c * x)

/-- Componentwise sum of a list of points. -/
def vecSum : List Point → Point
  | [] => []
  | p :: ps => ps.foldl vecAdd p

/-- Mean of a list of points (the metric-appropriate centre for the
squared Euclidean metric, spec 4.1 step 3a). -/
def centroidOf (ps : List Point) : Point :=
  vecScale (1 / (ps.length : ℚ)) (vecSum ps)

/-- Centroid of each working cluster: `some` mean for a non-empty cluster,
`none` for an empty one (spec 4.1 step 3a). -/
def computeCentroids (data : List Point) (a : List ℕ) (W : ℕ) :
    List (Option Point) :=
  (List.range W).map (fun j =>
    let m := membersData data a j
    if m = [] then none else some (centroidOf m))

/-- Read a centroid slot, defaulting an absent entry to the empty point
(the default is never consulted on the paths the engine takes, because the
empty-cluster policy fills every empty slot before reassignment). -/
def centD (cents : List (Option Point)) (j : ℕ) : Point :=
  (cents.getD j none).getD []

/-- Mean squared distance of the members of cluster `j` to its centroid:
the cluster variance used by the MaxVarianceNewCluster policy. -/
def clusterVar (data : List Point) (a : List ℕ)
    (cents : List (Option Point)) (j : ℕ) : ℚ :=
  let m := membersData data a j
  (m.map (fun p => sqEuclid p (centD cents j))).sum / (m.length : ℚ)

/-- Modelled from the spec: the highest-variance non-empty cluster
(lowest index on ties), the donor cluster of MaxVarianceNewCluster
(spec 4.3, design note in spec 9). -/
def maxVarIdx (data : List Point) (a : List ℕ)
    (cents : List (Option Point)) : ℕ :=
  let ne := (List.range cents.length).filter (fun j => membersData data a j ≠ [])
  ne.foldl (fun best j =>
    if clusterVar data a cents j > clusterVar data a cents best then j else best)
    (ne.headD 0)

/-- Modelled from the spec: one invocation of the MaxVarianceNewCluster
empty-cluster policy (spec 4.3): the point of the highest-variance cluster
farthest from its centroid (lowest point index on ties) is reassigned to
the empty cluster `e`, which is relocated onto that point. -/
def donateOne (data : List Point) (st : List ℕ × List (Option Point))
    (e : ℕ) : List ℕ × List (Option Point) :=
  let b := maxVarIdx data st.1 st.2
  let cb := centD st.2 b
  let idxs := memberIdxs st.1 b
  let donor := idxs.foldl (fun best i =>
    if sqEuclid (data.getD i []) cb > sqEuclid (data.getD best []) cb then i
    else best) (idxs.headD 0)
  (st.1.set donor e, st.2.set e (some (data.getD donor [])))

/-- Modelled from the spec: step 3b of the algorithm; every cluster that is
empty after the centroid computation is repaired by the empty-cluster
policy, in increasing id order. -/
def handleEmpties (data : List Point) (a : List ℕ)
    (cents : List (Option Point)) : List ℕ × List (Option Point) :=
  let empties := (List.range cents.length).filter
    (fun j => cents.getD j none = none)
  empties.foldl (donateOne data) (a, cents)

/-- Modelled from the spec: step 3c; every point is reassigned to its
nearest centroid, the lowest-indexed centroid winning ties. -/
def reassignAll (data : List Point) (cents : List (Option Point)) : List ℕ :=
  data.map (fun p => argminIdx (fun j => sqEuclid p (centD cents j)) cents.length)

/-- Modelled from the spec: one full iteration of the refinement loop
(steps 3a-3c): centroid computation, empty-cluster repair, reassignment. -/
def stepA (W : ℕ) (data : List Point) (a : List ℕ) : List ℕ :=
  let cents := computeCentroids data a W
  let st := handleEmpties data a cents
  reassignAll data st.2

/-- Modelled from the spec: the iteration loop (step 3), run on explicit
fuel; it stops early, reporting convergence, as soon as an iteration
leaves the assignment vector unchanged (step 3d).  Returns the final
assignment vector, the convergence flag, and the number of iterations
executed. -/
def lloydLoop (W : ℕ) (data : List Point) : ℕ → List ℕ → List ℕ × Bool × ℕ
  | 0, a => (a, false, 0)
  | fuel + 1, a =>
    let a2 := stepA W data a
    if a2 = a then (a, true, 1)
    else
      let r := lloydLoop W data fuel a2
      (r.1, r.2.1, r.2.2 + 1)

/-- All ordered pairs of a list, each earlier element paired with each
later one; on a sorted list this enumerates pairs in lexicographic
order. -/
def livePairs : List ℕ → List (ℕ × ℕ)
  | [] => []
  | i :: rest => rest.map (fun j => (i, j)) ++ livePairs rest

/-- First pair of `ps` achieving the minimal score (so, for a
lexicographically ordered pair list, the lowest-indexed closest pair:
the spec merge tie-break). -/
def chooseMergePair (score : ℕ × ℕ → ℚ) (ps : List (ℕ × ℕ)) : ℕ × ℕ :=
  ps.getD (argminIdx (fun i => score (ps.getD i (0, 0))) ps.length) (0, 0)

/-- Centroid of cluster `j` of `a`, as a bare point (empty cluster gives
the empty point). -/
def centOf (data : List Point) (a : List ℕ) (j : ℕ) : Point :=
  centroidOf (membersData data a j)

/-- Modelled from the spec: step 4; while more than `numClusters` working
clusters remain alive, the two closest centroids (lowest-indexed pair on
ties) are merged: the points of the higher id move to the lower id, whose
centroid becomes the population-weighted mean automatically when centroids
are recomputed from the merged membership.  Returns the surviving cluster
ids, the merged assignment vector, and the number of merges performed. -/
def mergeLoop (data : List Point) (numClusters : ℕ) :
    ℕ → List ℕ → List ℕ → List ℕ × List ℕ × ℕ
  | 0, live, a => (live, a, 0)
  | fuel + 1, live, a =>
    if live.length ≤ numClusters then (live, a, 0)
    else
      let pr := chooseMergePair
        (fun p => sqEuclid (centOf data a p.1) (centOf data a p.2))
        (livePairs live)
      let a2 := a.map (fun x => if x = pr.2 then pr.1 else x)
      let r := mergeLoop data numClusters fuel (live.erase pr.2) a2
      (r.1, r.2.1, r.2.2 + 1)

/-- Cluster ids below `W` that occur in `a`, in increasing order. -/
def presentIds (W : ℕ) (a : List ℕ) : List ℕ :=
  (List.range W).filter (fun j => j ∈ a)

/-- Modelled from the spec: step 5; relabel the assignment ids to a dense
`0..d-1` range, preserving the relative order of the surviving ids. -/
def relabel (W : ℕ) (a : List ℕ) : List ℕ :=
  a.map (fun x => (presentIds W a).indexOf x)

/-- Modelled from the spec: the default RandomPartition initial
partitioning policy, realised as the deterministic round-robin assignment
the spec permits (spec 4.2). -/
def roundRobinPartition (n W : ℕ) : List ℕ :=
  (List.range n).map (fun i => i % W)

/-- Working cluster count: `numClusters * overclusteringFactor`, rounded
(spec 4.1 step 1). -/
def workingClusters (numClusters : ℕ) (factor : ℚ) : ℕ :=
  (round ((numClusters : ℚ) * factor)).toNat

/-- Configuration state of a KMeans object: the five fields declared in
kmeans.hpp (maxIterations, overclusteringFactor, and the three
instantiated policy objects, whose types are parameters). -/
structure KMeans (M P E : Type) where
  maxIterations : ℕ := 1000
  overclusteringFactor : ℚ := 1
  metric : M
  partitioner : P
  emptyClusterAction : E
deriving DecidableEq

/-- KMeans instantiated with stateless default policies. -/
abbrev KMeansD := KMeans Unit Unit Unit

/-- Default-constructed KMeans object (kmeans.hpp constructor defaults:
maxIterations 1000, overclusteringFactor 1.0). -/
def defaultKMeans : KMeansD :=
  { metric := (), partitioner := (), emptyClusterAction := () }

/-- Accessor mirroring `KMeans::MaxIterations() const`. -/
def KMeans.MaxIterations {M P E : Type} (km : KMeans M P E) : ℕ :=
  km.maxIterations

/-- Accessor mirroring `KMeans::OverclusteringFactor() const`. -/
def KMeans.OverclusteringFactor {M P E : Type} (km : KMeans M P E) : ℚ :=
  km.overclusteringFactor

/-- Accessor mirroring `KMeans::Metric() const`. -/
def KMeans.Metric {M P E : Type} (km : KMeans M P E) : M := km.metric

/-- Accessor mirroring `KMeans::Partitioner() const`. -/
def KMeans.Partitioner {M P E : Type} (km : KMeans M P E) : P :=
  km.partitioner

/-- Accessor mirroring `KMeans::EmptyClusterAction() const`. -/
def KMeans.EmptyClusterAction {M P E : Type} (km : KMeans M P E) : E :=
  km.emptyClusterAction

/-- Write through the mutable reference returned by the non-const
`KMeans::OverclusteringFactor()` mutator (kmeans.hpp line 115): the stored
field becomes exactly the written value; the header performs no
validation (its comment only documents that the value must exceed 1). -/
def KMeans.setOverclusteringFactor {M P E : Type} (km : KMeans M P E)
    (v : ℚ) : KMeans M P E :=
  { km with overclusteringFactor := v }

/-- Write through the mutable reference returned by the non-const
`KMeans::MaxIterations()` mutator. -/
def KMeans.setMaxIterations {M P E : Type} (km : KMeans M P E) (v : ℕ) :
    KMeans M P E :=
  { km with maxIterations := v }

/-- Error taxonomy of the spec (section 7): malformed input. -/
inductive KMeansError where
  | invalidArgument : KMeansError
deriving DecidableEq

/-- Everything `Cluster` produces, kept for verification: the final
relabelled assignments, the raw loop output before merging/relabelling,
the convergence flag, the iteration count, the merge count and the
working cluster count. -/
structure ClusterResult where
  assignments : List ℕ
  loopOutput : List ℕ
  converged : Bool
  iterationsUsed : ℕ
  mergesPerformed : ℕ
  workingClusters : ℕ
deriving DecidableEq

/-- Modelled from the spec: the body of `KMeans::Cluster` (declared at
kmeans.hpp lines 103-106, implemented in the absent kmeans_impl.hpp),
following spec section 4.1: input validation first (spec section 7:
malformed-input errors are surfaced before any computation), then initial
partition (round-robin when unseeded, or when overclustering is active and
the seed does not cover every working id), then the iteration loop, the
merge phase and the final dense relabelling.  When `maxIterations` is 0
the loop fuel is a bound larger than any iteration count reachable before
the first repeated assignment vector would appear. -/
def clusterFull {M P E : Type} (km : KMeans M P E) (data : List Point)
    (numClusters : ℕ) (seed : List ℕ) : Except KMeansError ClusterResult :=
  let n := data.length
  let W := workingClusters numClusters km.overclusteringFactor
  if numClusters = 0 ∨ n < numClusters ∨
      (seed ≠ [] ∧ (seed.length ≠ n ∨ ∃ x ∈ seed, W ≤ x)) then
    Except.error KMeansError.invalidArgument
  else
    let a0 := if seed = [] ∨ (numClusters < W ∧ ¬ (∀ j < W, j ∈ seed)) then
        roundRobinPartition n W
      else seed
    let cap := if km.maxIterations = 0 then (W + 2) ^ (n + 2)
      else km.maxIterations
    let res := lloydLoop W data cap a0
    let mres := mergeLoop data numClusters W (List.range W) res.1
    Except.ok
      { assignments := relabel W mres.2.1
        loopOutput := res.1
        converged := res.2.1
        iterationsUsed := res.2.2
        mergesPerformed := mres.2.2
        workingClusters := W }

/-- The public entry point `Cluster(data, clusters, assignments)`: only
the final assignment vector. -/
def cluster {M P E : Type} (km : KMeans M P E) (data : List Point)
    (numClusters : ℕ) (seed : List ℕ) : Except KMeansError (List ℕ) :=
  (clusterFull km data numClusters seed).map (fun r => r.assignments)

/-- State-threading view of one `Cluster` call: the dataset is passed by
const reference (kmeans.hpp line 104), so the call returns it untouched;
the caller's assignment vector is overwritten on success and left
untouched on error (spec section 7 propagation policy). -/
def clusterCall {M P E : Type} (km : KMeans M P E) (data : List Point)
    (numClusters : ℕ) (asg : List ℕ) :
    List Point × List ℕ × Option KMeansError :=
  match clusterFull km data numClusters asg with
  | Except.ok r => (data, r.assignments, none)
  | Except.error e => (data, asg, some e)

/-- Object-threading view of one `Cluster` call: `Cluster` is a const
member function (kmeans.hpp lines 103-110), so the configuration object
that comes out is the one that went in. -/
def clusterConstCall {M P E : Type} (km : KMeans M P E) (data : List Point)
    (numClusters : ℕ) (asg : List ℕ) :
    KMeans M P E × (List Point × List ℕ × Option KMeansError) :=
  (km, clusterCall km data numClusters asg)

/-- State-threading view of one `FastCluster` call (kmeans.hpp line 108):
same contract as `Cluster`, but the dataset is taken by mutable reference
and may be reordered in place for locality (spec section 3.1).  Modelled
from the spec: on success the points are regrouped by final cluster id
(all of cluster 0 first, then cluster 1, and so on) and the assignment
vector is the same permutation applied back; on error both the dataset
and the caller's vector are handed back untouched. -/
def fastClusterCall {M P E : Type} (km : KMeans M P E) (data : List Point)
    (numClusters : ℕ) (asg : List ℕ) :
    List Point × List ℕ × Option KMeansError :=
  match clusterFull km data numClusters asg with
  | Except.ok r =>
      ((List.range numClusters).bind
         (fun j => membersData data r.assignments j),
       (List.range numClusters).bind
         (fun j => (memberIdxs r.assignments j).map (fun _ => j)),
       none)
  | Except.error e => (data, asg, some e)

/-- Object-threading view of one `FastCluster` call: `FastCluster` is
also a const member function (kmeans.hpp lines 103-110), so the
configuration object that comes out is the one that went in. -/
def fastClusterConstCall {M P E : Type} (km : KMeans M P E)
    (data : List Point) (numClusters : ℕ) (asg : List ℕ) :
    KMeans M P E × (List Point × List ℕ × Option KMeansError) :=
  (km, fastClusterCall km data numClusters asg)

/-- A small concrete configuration used to exercise the engine: five
iterations at most, no overclustering. -/
def kmFive : KMeansD :=
  { maxIterations := 5, overclusteringFactor := 1,
    metric := (), partitioner := (), emptyClusterAction := () }

/-- A concrete configuration with `maxIterations = 0` (run until
convergence) and no overclustering. -/
def kmUnbounded : KMeansD :=
  { maxIterations := 0, overclusteringFactor := 1,
    metric := (), partitioner := (), emptyClusterAction := () }

/-- Coordinate `d` of a point (0 beyond its length). -/
def coord (p : Point) (d : ℕ) : ℚ := p.getD d 0

/-- Total clustering cost of labelling `b` against a fixed centroid list:
the sum over all points of the squared distance to the centroid of the
point's cluster. -/
def costJ (data : List Point) (cents : List (Option Point)) (b : List ℕ) : ℚ :=
  ∑ i ∈ Finset.range data.length,
    sqEuclid (data.getD i []) (centD cents (b.getD i 0))

/-- Lloyd potential of an assignment: its cost against its own
centroids. -/
def potential (W : ℕ) (data : List Point) (a : List ℕ) : ℚ :=
  costJ data (computeCentroids data a W) a

/-- Sum of the assignment indices: the secondary termination measure used
on zero-cost states. -/
def sumIdx (a : List ℕ) : ℕ :=
  ∑ i ∈ Finset.range a.length, a.getD i 0

/-- No working cluster is empty under `a`. -/
def noEmpty (W : ℕ) (data : List Point) (a : List ℕ) : Prop :=
  ∀ j < W, membersData data a j ≠ []

/-!  Helper lemmas about the embedded definitions.  -/

lemma workingClusters_one (k : ℕ) : workingClusters k 1 = k := by
  unfold workingClusters
  rw [mul_one, round_natCast]
  simp

lemma round_le_round {x y : ℚ} (h : x ≤ y) : round x ≤ round y := by
  rw [round_eq, round_eq]
  exact Int.floor_le_floor (by linarith)

lemma le_workingClusters {k : ℕ} {f : ℚ} (hf : 1 ≤ f) :
    k ≤ workingClusters k f := by
  unfold workingClusters
  have h1 : ((k : ℚ)) ≤ (k : ℚ) * f :=
    le_mul_of_one_le_right (by positivity) hf
  have h2 : (k : ℤ) ≤ round ((k : ℚ) * f) := by
    calc (k : ℤ) = round ((k : ℚ)) := (round_natCast k).symm
    _ ≤ round ((k : ℚ) * f) := round_le_round h1
  have h3 := Int.toNat_le_toNat h2
  simpa using h3

lemma argminIdx_succ (f : ℕ → ℚ) (W : ℕ) :
    argminIdx f (W + 1) =
      if f W < f (argminIdx f W) then W else argminIdx f W := by
  unfold argminIdx
  rw [List.range_succ, List.foldl_append]
  rfl

lemma argminIdx_spec (f : ℕ → ℚ) :
    ∀ W : ℕ, 0 < W →
      argminIdx f W < W ∧
      (∀ j < W, f (argminIdx f W) ≤ f j) ∧
      (∀ j < argminIdx f W, f (argminIdx f W) < f j) := by
  intro W
  induction W with
  | zero => intro h; exact absurd h (by simp)
  | succ W ih =>
    intro _
    by_cases hW : W = 0
    · subst hW
      have h0 : argminIdx f 1 = 0 := by
        rw [show (1 : ℕ) = 0 + 1 from rfl, argminIdx_succ]
        have : argminIdx f 0 = 0 := rfl
        rw [this, if_neg (lt_irrefl _)]
      refine ⟨by rw [h0]; exact Nat.zero_lt_one, ?_, ?_⟩
      · intro j hj
        interval_cases j
        · rw [h0]
      · intro j hj
        rw [h0] at hj
        exact absurd hj (Nat.not_lt_zero j)
    · obtain ⟨hlt, hmin, hstrict⟩ := ih (Nat.pos_of_ne_zero hW)
      rw [argminIdx_succ]
      by_cases hc : f W < f (argminIdx f W)
      · rw [if_pos hc]
        refine ⟨Nat.lt_succ_self W, ?_, ?_⟩
        · intro j hj
          rcases Nat.lt_succ_iff_lt_or_eq.mp hj with hj2 | hj2
          · exact le_of_lt (lt_of_lt_of_le hc (hmin j hj2))
          · subst hj2; exact le_refl _
        · intro j hj
          exact lt_of_lt_of_le hc (hmin j hj)
      · rw [if_neg hc]
        refine ⟨Nat.lt_succ_of_lt hlt, ?_, hstrict⟩
        intro j hj
        rcases Nat.lt_succ_iff_lt_or_eq.mp hj with hj2 | hj2
        · exact hmin j hj2
        · subst hj2; exact le_of_not_lt hc

lemma argminIdx_lt (f : ℕ → ℚ) {W : ℕ} (h : 0 < W) : argminIdx f W < W :=
  (argminIdx_spec f W h).1

lemma reassignAll_length (data : List Point) (cents : List (Option Point)) :
    (reassignAll data cents).length = data.length := by
  simp [reassignAll]

lemma reassignAll_lt (data : List Point) (cents : List (Option Point))
    (h : 0 < cents.length) :
    ∀ x ∈ reassignAll data cents, x < cents.length := by
  intro x hx
  simp only [reassignAll, List.mem_map] at hx
  obtain ⟨p, _, rfl⟩ := hx
  exact argminIdx_lt _ h

lemma computeCentroids_length (data : List Point) (a : List ℕ) (W : ℕ) :
    (computeCentroids data a W).length = W := by
  simp [computeCentroids]

lemma donateOne_length (data : List Point) (st : List ℕ × List (Option Point))
    (e : ℕ) : ((donateOne data st e).2).length = st.2.length := by
  simp [donateOne]

lemma handleEmpties_foldl_length (data : List Point) :
    ∀ (l : List ℕ) (st : List ℕ × List (Option Point)),
      ((l.foldl (donateOne data) st).2).length = st.2.length := by
  intro l
  induction l with
  | nil => intro st; rfl
  | cons e l ih =>
    intro st
    rw [List.foldl_cons, ih (donateOne data st e), donateOne_length]

lemma handleEmpties_length (data : List Point) (a : List ℕ)
    (cents : List (Option Point)) :
    ((handleEmpties data a cents).2).length = cents.length := by
  unfold handleEmpties
  rw [handleEmpties_foldl_length]

lemma stepA_length (W : ℕ) (data : List Point) (a : List ℕ) :
    (stepA W data a).length = data.length := by
  unfold stepA
  rw [reassignAll_length]

lemma stepA_lt (W : ℕ) (data : List Point) (a : List ℕ) (hW : 0 < W) :
    ∀ x ∈ stepA W data a, x < W := by
  unfold stepA
  intro x hx
  have hlen : ((handleEmpties data a (computeCentroids data a W)).2).length = W := by
    rw [handleEmpties_length, computeCentroids_length]
  have := reassignAll_lt data _ (by rw [hlen]; exact hW) x hx
  rwa [hlen] at this

lemma lloydLoop_converged (W : ℕ) (data : List Point) :
    ∀ (fuel : ℕ) (a : List ℕ),
      (lloydLoop W data fuel a).2.1 = true →
      stepA W data (lloydLoop W data fuel a).1 = (lloydLoop W data fuel a).1 := by
  intro fuel
  induction fuel with
  | zero => intro a h; exact absurd h (by simp [lloydLoop])
  | succ fuel ih =>
    intro a h
    by_cases hc : stepA W data a = a
    · simp only [lloydLoop, if_pos hc]
      exact hc
    · simp only [lloydLoop, if_neg hc] at h ⊢
      exact ih (stepA W data a) h

lemma lloydLoop_shape (W : ℕ) (data : List Point) :
    ∀ (fuel : ℕ) (a : List ℕ), fuel ≠ 0 →
      ∃ b, (lloydLoop W data fuel a).1 = stepA W data b := by
  intro fuel
  induction fuel with
  | zero => intro a h; exact absurd rfl h
  | succ fuel ih =>
    intro a _
    by_cases hc : stepA W data a = a
    · exact ⟨a, by simp only [lloydLoop, if_pos hc]; exact hc.symm⟩
    · cases fuel with
      | zero =>
        exact ⟨a, by simp only [lloydLoop, if_neg hc]⟩
      | succ fuel2 =>
        obtain ⟨b, hb⟩ := ih (stepA W data a) (Nat.succ_ne_zero fuel2)
        exact ⟨b, by simp only [lloydLoop, if_neg hc]; exact hb⟩

lemma lloydLoop_iterations (W : ℕ) (data : List Point) :
    ∀ (fuel : ℕ) (a : List ℕ),
      (lloydLoop W data fuel a).2.2 ≤ fuel := by
  intro fuel
  induction fuel with
  | zero => intro a; simp [lloydLoop]
  | succ fuel ih =>
    intro a
    by_cases hc : stepA W data a = a
    · simp only [lloydLoop, if_pos hc]
      exact Nat.succ_le_succ (Nat.zero_le fuel)
    · simp only [lloydLoop, if_neg hc]
      exact Nat.succ_le_succ (ih (stepA W data a))

lemma livePairs_mem : ∀ (l : List ℕ) (q : ℕ × ℕ),
    q ∈ livePairs l → q.1 ∈ l ∧ q.2 ∈ l := by
  intro l
  induction l with
  | nil => intro q h; exact absurd h (by simp [livePairs])
  | cons i rest ih =>
    intro q h
    simp only [livePairs, List.mem_append, List.mem_map] at h
    rcases h with ⟨j, hj, rfl⟩ | h
    · exact ⟨List.mem_cons_self i rest, List.mem_cons_of_mem i hj⟩
    · obtain ⟨h1, h2⟩ := ih q h
      exact ⟨List.mem_cons_of_mem i h1, List.mem_cons_of_mem i h2⟩

lemma livePairs_ne : ∀ (l : List ℕ), l.Nodup → ∀ q ∈ livePairs l, q.1 ≠ q.2 := by
  intro l
  induction l with
  | nil => intro _ q h; exact absurd h (by simp [livePairs])
  | cons i rest ih =>
    intro hnd q h
    simp only [livePairs, List.mem_append, List.mem_map] at h
    rcases h with ⟨j, hj, rfl⟩ | h
    · intro hij
      have hij2 : i = j := hij
      exact (List.nodup_cons.mp hnd).1 (hij2 ▸ hj)
    · exact ih (List.nodup_cons.mp hnd).2 q h

lemma livePairs_ne_nil {l : List ℕ} (h : 2 ≤ l.length) :
    livePairs l ≠ [] := by
  match l, h with
  | i :: j :: rest, _ =>
    simp [livePairs]

lemma chooseMergePair_mem (score : ℕ × ℕ → ℚ) (ps : List (ℕ × ℕ))
    (h : ps ≠ []) : chooseMergePair score ps ∈ ps := by
  unfold chooseMergePair
  have hpos : 0 < ps.length := List.length_pos.mpr h
  have hlt := argminIdx_lt (fun i => score (ps.getD i (0, 0))) hpos
  rw [List.getD_eq_getElem ps (0, 0) hlt]
  exact List.getElem_mem hlt

lemma mergeLoop_spec (data : List Point) (k : ℕ) (hk : 0 < k) :
    ∀ (fuel : ℕ) (live a : List ℕ), live.Nodup → (∀ x ∈ a, x ∈ live) →
      (∀ x ∈ (mergeLoop data k fuel live a).2.1,
        x ∈ (mergeLoop data k fuel live a).1) ∧
      (mergeLoop data k fuel live a).2.1.length = a.length ∧
      (mergeLoop data k fuel live a).1 ⊆ live ∧
      (mergeLoop data k fuel live a).1.Nodup ∧
      (k ≤ live.length → live.length - k ≤ fuel →
        (mergeLoop data k fuel live a).1.length = k) := by
  intro fuel
  induction fuel with
  | zero =>
    intro live a hnd hmem
    have hstep : mergeLoop data k 0 live a = (live, a, 0) := rfl
    rw [hstep]
    refine ⟨hmem, rfl, fun x hx => hx, hnd, fun h1 h2 => ?_⟩
    show live.length = k
    omega
  | succ fuel ih =>
    intro live a hnd hmem
    by_cases hguard : live.length ≤ k
    · have hstep : mergeLoop data k (fuel + 1) live a = (live, a, 0) := by
        simp only [mergeLoop, if_pos hguard]
      rw [hstep]
      exact ⟨hmem, rfl, fun x hx => hx, hnd, fun h1 _ => le_antisymm hguard h1⟩
    · have hlen2 : 2 ≤ live.length := by omega
      have hpr : chooseMergePair
          (fun p => sqEuclid (centOf data a p.1) (centOf data a p.2))
          (livePairs live) ∈ livePairs live :=
        chooseMergePair_mem _ _ (livePairs_ne_nil hlen2)
      set pr := chooseMergePair
        (fun p => sqEuclid (centOf data a p.1) (centOf data a p.2))
        (livePairs live) with hprdef
      have hmem1 : pr.1 ∈ live := (livePairs_mem live pr hpr).1
      have hmem2 : pr.2 ∈ live := (livePairs_mem live pr hpr).2
      have hne12 : pr.1 ≠ pr.2 := livePairs_ne live hnd pr hpr
      have herase_len : (live.erase pr.2).length + 1 = live.length :=
        List.length_erase_add_one hmem2
      have hnd2 : (live.erase pr.2).Nodup := hnd.erase pr.2
      have hmem3 : ∀ x ∈ a.map (fun x => if x = pr.2 then pr.1 else x),
          x ∈ live.erase pr.2 := by
        intro x hx
        simp only [List.mem_map] at hx
        obtain ⟨y, hy, rfl⟩ := hx
        by_cases hy2 : y = pr.2
        · rw [if_pos hy2]
          exact (List.mem_erase_of_ne hne12).mpr hmem1
        · rw [if_neg hy2]
          exact (List.mem_erase_of_ne hy2).mpr (hmem y hy)
      obtain ⟨ih1, ih2, ih3, ih4, ih5⟩ :=
        ih (live.erase pr.2) (a.map (fun x => if x = pr.2 then pr.1 else x))
          hnd2 hmem3
      simp only [mergeLoop, if_neg hguard]
      rw [← hprdef]
      refine ⟨ih1, ?_, ?_, ih4, ?_⟩
      · rw [ih2, List.length_map]
      · exact fun x hx => (live.erase_sublist pr.2).subset (ih3 hx)
      · intro h1 h2
        exact ih5 (by omega) (by omega)

lemma mem_presentIds {W : ℕ} {a : List ℕ} {j : ℕ} :
    j ∈ presentIds W a ↔ j < W ∧ j ∈ a := by
  simp [presentIds]

lemma presentIds_nodup (W : ℕ) (a : List ℕ) : (presentIds W a).Nodup :=
  (List.nodup_range W).filter _

lemma relabel_length (W : ℕ) (a : List ℕ) :
    (relabel W a).length = a.length := by
  simp [relabel]

lemma relabel_lt {W : ℕ} {a : List ℕ} (hb : ∀ x ∈ a, x < W) :
    ∀ y ∈ relabel W a, y < (presentIds W a).length := by
  intro y hy
  simp only [relabel, List.mem_map] at hy
  obtain ⟨x, hx, rfl⟩ := hy
  exact List.indexOf_lt_length.mpr (mem_presentIds.mpr ⟨hb x hx, hx⟩)

lemma relabel_surj {W : ℕ} {a : List ℕ} :
    ∀ m < (presentIds W a).length, m ∈ relabel W a := by
  intro m hm
  have hy : (presentIds W a)[m] ∈ presentIds W a := List.getElem_mem hm
  have hya : (presentIds W a)[m] ∈ a := (mem_presentIds.mp hy).2
  have hidx : (presentIds W a).indexOf ((presentIds W a)[m]) = m :=
    List.indexOf_getElem (presentIds_nodup W a) m hm
  simp only [relabel, List.mem_map]
  exact ⟨(presentIds W a)[m], hya, hidx⟩

/-!  Claim theorems.  -/

/-- Claim C6: determinism.  With fixed metric, partitioner and
empty-cluster policy (the modelled defaults are deterministic, as the spec
permits for RandomPartition) and identical configuration, two invocations
of Cluster on identical input data and identical initial assignments
produce identical final assignments: the engine is a pure function of its
inputs, with no hidden state. -/
theorem c6_deterministic {M P E : Type} (km₁ km₂ : KMeans M P E)
    (data₁ data₂ : List Point) (k₁ k₂ : ℕ) (seed₁ seed₂ : List ℕ)
    (hkm : km₁ = km₂) (hdata : data₁ = data₂) (hk : k₁ = k₂)
    (hseed : seed₁ = seed₂) :
    cluster km₁ data₁ k₁ seed₁ = cluster km₂ data₂ k₂ seed₂ := by
  subst hkm hdata hk hseed
  rfl

/-- Witness for C6 at a concrete input. -/
theorem c6_deterministic_witness :
    cluster kmFive [[(0 : ℚ)], [1]] 2 [] = cluster kmFive [[(0 : ℚ)], [1]] 2 [] :=
  c6_deterministic kmFive kmFive _ _ 2 2 [] [] rfl rfl rfl rfl

/-- Claim C8: frame property of Cluster.  The dataset is passed by const
reference (kmeans.hpp line 104), so a Cluster call hands the dataset back
untouched; only the assignment vector is (re)written.  The FastCluster
variant (kmeans.hpp line 108), which takes data by mutable reference, is
the only one permitted to reorder data. -/
theorem c8_data_unchanged {M P E : Type} (km : KMeans M P E)
    (data : List Point) (numClusters : ℕ) (asg : List ℕ) :
    (clusterCall km data numClusters asg).1 = data := by
  unfold clusterCall
  cases clusterFull km data numClusters asg <;> rfl

/-- Claim C10: Cluster and FastCluster are both const member functions
(kmeans.hpp lines 103-110), so neither kind of clustering call touches
the configuration object: all five configuration fields, read through
their accessors, are the same before and after either call. -/
theorem c10_const_config {M P E : Type} (km : KMeans M P E)
    (data : List Point) (numClusters : ℕ) (asg : List ℕ) :
    ((clusterConstCall km data numClusters asg).1 = km ∧
     (clusterConstCall km data numClusters asg).1.MaxIterations =
       km.MaxIterations ∧
     (clusterConstCall km data numClusters asg).1.OverclusteringFactor =
       km.OverclusteringFactor ∧
     (clusterConstCall km data numClusters asg).1.Metric = km.Metric ∧
     (clusterConstCall km data numClusters asg).1.Partitioner =
       km.Partitioner ∧
     (clusterConstCall km data numClusters asg).1.EmptyClusterAction =
       km.EmptyClusterAction) ∧
    ((fastClusterConstCall km data numClusters asg).1 = km ∧
     (fastClusterConstCall km data numClusters asg).1.MaxIterations =
       km.MaxIterations ∧
     (fastClusterConstCall km data numClusters asg).1.OverclusteringFactor =
       km.OverclusteringFactor ∧
     (fastClusterConstCall km data numClusters asg).1.Metric = km.Metric ∧
     (fastClusterConstCall km data numClusters asg).1.Partitioner =
       km.Partitioner ∧
     (fastClusterConstCall km data numClusters asg).1.EmptyClusterAction =
       km.EmptyClusterAction) :=
  ⟨⟨rfl, rfl, rfl, rfl, rfl, rfl⟩, ⟨rfl, rfl, rfl, rfl, rfl, rfl⟩⟩

/-- Counterexample to claim C9 as stated: the non-const
`OverclusteringFactor()` mutator (kmeans.hpp line 115) hands back an
unvalidated mutable reference, so writing 1/2 through it on a
default-constructed object (factor 1) reaches a configuration state whose
overclustering factor is below 1. -/
theorem c9_counterexample :
    1 ≤ defaultKMeans.OverclusteringFactor ∧
    (defaultKMeans.setOverclusteringFactor (1 / 2)).OverclusteringFactor < 1 := by
  constructor
  · norm_num [defaultKMeans, KMeans.OverclusteringFactor]
  · norm_num [defaultKMeans, KMeans.OverclusteringFactor,
      KMeans.setOverclusteringFactor]

/-- Claim C9, amended: the invariant `overclusteringFactor ≥ 1` holds
after construction whenever the constructor argument is at least 1, and is
preserved by const operations (such as Cluster calls) and by writes
through the mutator of values that are themselves at least 1; the mutator
performs no validation, so writes below 1 break the invariant
(see the counterexample). -/
theorem c9_amended {M P E : Type} (mi : ℕ) (f : ℚ) (m : M) (p : P) (e : E)
    (km : KMeans M P E) (v : ℚ) (data : List Point) (numClusters : ℕ)
    (asg : List ℕ) (hf : 1 ≤ f) (hv : 1 ≤ v) :
    1 ≤ (KMeans.mk mi f m p e).OverclusteringFactor ∧
    1 ≤ (km.setOverclusteringFactor v).OverclusteringFactor ∧
    (clusterConstCall km data numClusters asg).1.OverclusteringFactor =
      km.OverclusteringFactor :=
  ⟨hf, hv, rfl⟩

/-- Witness for C9 amended at concrete inputs. -/
theorem c9_amended_witness :
    (1 : ℚ) ≤ 2 ∧ (1 : ℚ) ≤ 3 ∧
    (1 ≤ (KMeans.mk 7 2 () () () : KMeansD).OverclusteringFactor ∧
     1 ≤ (defaultKMeans.setOverclusteringFactor 3).OverclusteringFactor ∧
     (clusterConstCall defaultKMeans [[(0 : ℚ)]] 1 []).1.OverclusteringFactor =
       defaultKMeans.OverclusteringFactor) :=
  ⟨by norm_num, by norm_num,
    c9_amended 7 2 () () () defaultKMeans 3 [[(0 : ℚ)]] 1 []
      (by norm_num) (by norm_num)⟩

/-- Claim C3: Cluster fails with InvalidArgument exactly when
`numClusters` is 0, `numClusters` exceeds the number of points, or a
pre-seeded assignment vector has the wrong length or an out-of-range
cluster id; the validation happens before any computation, so on error
the caller's assignment vector is handed back unchanged. -/
theorem c3_error_iff {M P E : Type} (km : KMeans M P E) (data : List Point)
    (numClusters : ℕ) (seed : List ℕ) :
    (cluster km data numClusters seed =
        Except.error KMeansError.invalidArgument ↔
      (numClusters = 0 ∨ data.length < numClusters ∨
        (seed ≠ [] ∧ (seed.length ≠ data.length ∨
          ∃ x ∈ seed,
            workingClusters numClusters km.overclusteringFactor ≤ x)))) ∧
    ((clusterCall km data numClusters seed).2.2.isSome →
      (clusterCall km data numClusters seed).2.1 = seed) := by
  constructor
  · by_cases h : (numClusters = 0 ∨ data.length < numClusters ∨
        (seed ≠ [] ∧ (seed.length ≠ data.length ∨
          ∃ x ∈ seed, workingClusters numClusters km.overclusteringFactor ≤ x)))
    · simp [cluster, clusterFull, h, Except.map]
    · simp [cluster, clusterFull, h, Except.map]
  · unfold clusterCall
    cases clusterFull km data numClusters seed with
    | ok r => intro h; exact absurd h (by simp)
    | error e => intro _; rfl

/-- Claim C4: with `overclusteringFactor = 1.0` the working cluster count
equals `numClusters` and the centroid-merge step (algorithm step 4) never
executes: the merge phase performs zero merges. -/
theorem c4_no_merge {M P E : Type} (km : KMeans M P E) (data : List Point)
    (numClusters : ℕ) (seed : List ℕ) (r : ClusterResult)
    (hf : km.overclusteringFactor = 1)
    (hok : clusterFull km data numClusters seed = Except.ok r) :
    r.workingClusters = numClusters ∧ r.mergesPerformed = 0 := by
  have hW : workingClusters numClusters km.overclusteringFactor = numClusters := by
    rw [hf, workingClusters_one]
  simp only [clusterFull, hW] at hok
  split at hok
  · exact absurd hok (by simp)
  · rename_i hcond
    have hk0 : numClusters ≠ 0 := by
      intro h0
      exact hcond (Or.inl h0)
    obtain ⟨k', rfl⟩ : ∃ k', numClusters = k' + 1 :=
      ⟨numClusters - 1, by omega⟩
    have hmerge : ∀ a : List ℕ,
        mergeLoop data (k' + 1) (k' + 1) (List.range (k' + 1)) a =
          (List.range (k' + 1), a, 0) := by
      intro a
      simp only [mergeLoop, List.length_range, le_refl, if_pos]
    rw [hmerge] at hok
    have hr := (Except.ok.inj hok).symm
    subst hr
    exact ⟨rfl, rfl⟩

/-- Witness for C4 at a concrete input. -/
theorem c4_no_merge_witness :
    kmFive.overclusteringFactor = 1 ∧
    clusterFull kmFive [[(0 : ℚ)], [1]] 2 [] = Except.ok
      { assignments := [0, 1], loopOutput := [0, 1], converged := true,
        iterationsUsed := 1, mergesPerformed := 0, workingClusters := 2 } ∧
    ({ assignments := [0, 1], loopOutput := [0, 1], converged := true,
       iterationsUsed := 1, mergesPerformed := 0,
       workingClusters := 2 } : ClusterResult).workingClusters = 2 ∧
    ({ assignments := [0, 1], loopOutput := [0, 1], converged := true,
       iterationsUsed := 1, mergesPerformed := 0,
       workingClusters := 2 } : ClusterResult).mergesPerformed = 0 := by
  have hok : clusterFull kmFive [[(0 : ℚ)], [1]] 2 [] = Except.ok
      { assignments := [0, 1], loopOutput := [0, 1], converged := true,
        iterationsUsed := 1, mergesPerformed := 0, workingClusters := 2 } := by
    with_unfolding_all rfl
  exact ⟨rfl, hok, c4_no_merge kmFive [[(0 : ℚ)], [1]] 2 [] _ rfl hok⟩

/-- Witness for C3 at a concrete erroring input (`numClusters` exceeds the
point count): the error is reported and the caller's assignment vector
comes back unchanged. -/
theorem c3_error_iff_witness :
    (clusterCall kmFive [[(0 : ℚ)], [1]] 3 []).2.2.isSome = true ∧
    (clusterCall kmFive [[(0 : ℚ)], [1]] 3 []).2.1 = [] :=
  ⟨by with_unfolding_all rfl,
    (c3_error_iff kmFive [[(0 : ℚ)], [1]] 3 []).2 (by with_unfolding_all rfl)⟩

/-- Counterexample to claim C1 as stated: on the dataset of two identical
1-D points with `numClusters = 2` (which satisfies the preconditions
`1 ≤ numClusters ≤ number of points`), the engine converges with both
points in cluster 0 — the empty-cluster policy's donated point is pulled
straight back by the lowest-index tie-break — so the final assignment
vector never mentions id 1: it does not contain `numClusters` distinct
values. -/
theorem c1_counterexample :
    cluster defaultKMeans [[(0 : ℚ)], [0]] 2 [] = Except.ok [0, 0] ∧
    ¬ (1 : ℕ) ∈ [(0 : ℕ), 0] := by
  constructor
  · with_unfolding_all rfl
  · decide

/-- Claim C1, amended: for every accepted input (and a well-formed
overclustering factor, at least 1), the final assignment ids form a
gapless initial segment `0..d-1` with `1 ≤ d ≤ numClusters` (`d` can fall
short of `numClusters` on degenerate data, e.g. duplicate points — see the
counterexample); the pre-relabel loop output is always the result of a
nearest-centroid reassignment pass (so each point is assigned to a nearest
working centroid at the iteration cap), and on convergence the loop output
is a fixed point of the full iteration step. -/
theorem c1_amended {M P E : Type} (km : KMeans M P E) (data : List Point)
    (numClusters : ℕ) (seed : List ℕ) (r : ClusterResult)
    (hf : 1 ≤ km.overclusteringFactor)
    (hok : clusterFull km data numClusters seed = Except.ok r) :
    (∃ d, 0 < d ∧ d ≤ numClusters ∧
      (∀ x ∈ r.assignments, x < d) ∧ (∀ m < d, m ∈ r.assignments)) ∧
    (r.converged = true →
      stepA r.workingClusters data r.loopOutput = r.loopOutput) ∧
    (∃ b, r.loopOutput = stepA r.workingClusters data b) := by
  simp only [clusterFull] at hok
  split at hok
  · exact absurd hok (by simp)
  · rename_i hcond
    obtain rfl := Except.ok.inj hok
    have hk0 : numClusters ≠ 0 := fun h => hcond (Or.inl h)
    have hkn : numClusters ≤ data.length := by
      by_contra h
      exact hcond (Or.inr (Or.inl (by omega)))
    set W := workingClusters numClusters km.overclusteringFactor with hWdef
    set cap := if km.maxIterations = 0 then (W + 2) ^ (data.length + 2)
      else km.maxIterations with hcapdef
    set a0 := if seed = [] ∨ (numClusters < W ∧ ¬ (∀ j < W, j ∈ seed)) then
        roundRobinPartition data.length W
      else seed with ha0def
    have hW1 : 0 < W := lt_of_lt_of_le (Nat.pos_of_ne_zero hk0)
      (le_workingClusters hf)
    have hcap : cap ≠ 0 := by
      rw [hcapdef]
      split
      · positivity
      · assumption
    obtain ⟨b, hb⟩ := lloydLoop_shape W data cap a0 hcap
    have haL_len : (lloydLoop W data cap a0).1.length = data.length := by
      rw [hb, stepA_length]
    have haL_lt : ∀ x ∈ (lloydLoop W data cap a0).1, x < W := by
      rw [hb]
      exact stepA_lt W data b hW1
    have hmem0 : ∀ x ∈ (lloydLoop W data cap a0).1, x ∈ List.range W :=
      fun x hx => List.mem_range.mpr (haL_lt x hx)
    obtain ⟨m1, m2, m3, m4, m5⟩ := mergeLoop_spec data numClusters
      (Nat.pos_of_ne_zero hk0) W (List.range W) (lloydLoop W data cap a0).1
      (List.nodup_range W) hmem0
    have hlive_len :
        (mergeLoop data numClusters W (List.range W)
          (lloydLoop W data cap a0).1).1.length = numClusters := by
      refine m5 ?_ ?_ <;> rw [List.length_range]
      · exact le_workingClusters hf
      · omega
    have haM_len : (mergeLoop data numClusters W (List.range W)
        (lloydLoop W data cap a0).1).2.1.length = data.length :=
      m2.trans haL_len
    have haM_lt : ∀ x ∈ (mergeLoop data numClusters W (List.range W)
        (lloydLoop W data cap a0).1).2.1, x < W := by
      intro x hx
      exact List.mem_range.mp (m3 (m1 x hx))
    refine ⟨⟨(presentIds W (mergeLoop data numClusters W (List.range W)
        (lloydLoop W data cap a0).1).2.1).length, ?_, ?_, ?_, ?_⟩, ?_, ?_⟩
    · -- the present-id list is non-empty because the dataset is non-empty
      have hn1 : 0 < data.length := lt_of_lt_of_le
        (Nat.pos_of_ne_zero hk0) hkn
      have hx0 : (mergeLoop data numClusters W (List.range W)
          (lloydLoop W data cap a0).1).2.1 ≠ [] := by
        intro hnil
        rw [hnil] at haM_len
        simp at haM_len
        omega
      obtain ⟨x0, hx0mem⟩ := List.exists_mem_of_ne_nil _ hx0
      have : x0 ∈ presentIds W (mergeLoop data numClusters W (List.range W)
          (lloydLoop W data cap a0).1).2.1 :=
        mem_presentIds.mpr ⟨haM_lt x0 hx0mem, hx0mem⟩
      exact List.length_pos.mpr (List.ne_nil_of_mem this)
    · -- at most numClusters present ids survive the merge phase
      have hsub : presentIds W (mergeLoop data numClusters W (List.range W)
          (lloydLoop W data cap a0).1).2.1 ⊆
          (mergeLoop data numClusters W (List.range W)
            (lloydLoop W data cap a0).1).1 := by
        intro x hx
        exact m1 x (mem_presentIds.mp hx).2
      have := (List.subperm_of_subset (presentIds_nodup _ _) hsub).length_le
      omega
    · exact relabel_lt haM_lt
    · exact fun m hm => relabel_surj m hm
    · intro hc
      exact lloydLoop_converged W data cap a0 hc
    · exact ⟨b, hb⟩

/-- Witness for C1 amended at a concrete input. -/
theorem c1_amended_witness :
    (1 : ℚ) ≤ kmFive.overclusteringFactor ∧
    clusterFull kmFive [[(0 : ℚ)], [1]] 2 [] = Except.ok
      { assignments := [0, 1], loopOutput := [0, 1], converged := true,
        iterationsUsed := 1, mergesPerformed := 0, workingClusters := 2 } ∧
    ((∃ d, 0 < d ∧ d ≤ 2 ∧
      (∀ x ∈ [(0 : ℕ), 1], x < d) ∧ (∀ m < d, m ∈ [(0 : ℕ), 1])) ∧
    (true = true → stepA 2 [[(0 : ℚ)], [1]] [0, 1] = [0, 1]) ∧
    (∃ b, ([0, 1] : List ℕ) = stepA 2 [[(0 : ℚ)], [1]] b)) := by
  have hok : clusterFull kmFive [[(0 : ℚ)], [1]] 2 [] = Except.ok
      { assignments := [0, 1], loopOutput := [0, 1], converged := true,
        iterationsUsed := 1, mergesPerformed := 0, workingClusters := 2 } := by
    with_unfolding_all rfl
  exact ⟨by norm_num [kmFive], hok,
    c1_amended kmFive [[(0 : ℚ)], [1]] 2 [] _ (by norm_num [kmFive]) hok⟩

/-- Claim C5: idempotence at a fixed point.  Re-running Cluster with the
assignment vector pre-seeded to a previously converged result — i.e. a
seed that is a fixed point of the iteration step, already in canonical
dense-label form — and `maxIterations = 0` (unbounded) stops after a
single iteration, reporting convergence with no assignment change, and
returns the seed itself. -/
theorem c5_idempotent {M P E : Type} (km : KMeans M P E) (data : List Point)
    (numClusters : ℕ) (seed : List ℕ)
    (h0 : km.maxIterations = 0) (hf : km.overclusteringFactor = 1)
    (hk0 : numClusters ≠ 0) (hkn : numClusters ≤ data.length)
    (hlen : seed.length = data.length)
    (hids : ∀ x ∈ seed, x < numClusters)
    (hfix : stepA numClusters data seed = seed)
    (hrel : relabel numClusters seed = seed) :
    clusterFull km data numClusters seed = Except.ok
      { assignments := seed, loopOutput := seed, converged := true,
        iterationsUsed := 1, mergesPerformed := 0,
        workingClusters := numClusters } := by
  have hW : workingClusters numClusters km.overclusteringFactor = numClusters := by
    rw [hf, workingClusters_one]
  have hseedne : seed ≠ [] := by
    intro h
    rw [h] at hlen
    simp at hlen
    omega
  obtain ⟨k', rfl⟩ : ∃ k', numClusters = k' + 1 :=
    ⟨numClusters - 1, by omega⟩
  have hval : ¬(k' + 1 = 0 ∨ data.length < k' + 1 ∨
      (seed ≠ [] ∧ (seed.length ≠ data.length ∨
        ∃ x ∈ seed, k' + 1 ≤ x))) := by
    push_neg
    refine ⟨by omega, by omega, fun _ => ⟨hlen, fun x hx => ?_⟩⟩
    exact hids x hx
  have ha0 : ¬(seed = [] ∨ (k' + 1 < k' + 1 ∧ ¬ (∀ j < k' + 1, j ∈ seed))) := by
    push_neg
    exact ⟨hseedne, fun h => absurd h (lt_irrefl _)⟩
  obtain ⟨c, hc⟩ : ∃ c, (k' + 1 + 2) ^ (data.length + 2) = c + 1 :=
    ⟨(k' + 1 + 2) ^ (data.length + 2) - 1, by
      have : 0 < (k' + 1 + 2) ^ (data.length + 2) := pow_pos (by omega) _
      omega⟩
  have hloop : lloydLoop (k' + 1) data (c + 1) seed = (seed, true, 1) := by
    simp only [lloydLoop, if_pos hfix]
  have hmerge : mergeLoop data (k' + 1) (k' + 1) (List.range (k' + 1)) seed =
      (List.range (k' + 1), seed, 0) := by
    simp only [mergeLoop, List.length_range, le_refl, if_pos]
  simp only [clusterFull, hW, h0, if_neg hval, if_neg ha0, if_pos rfl, hc,
    if_true, hloop, hmerge, hrel]

/-- Witness for C5 at a concrete input: the seed `[0, 1]` on the two-point
dataset `0, 2` is a converged labelling, and re-clustering it with
`maxIterations = 0` returns it unchanged after one iteration. -/
theorem c5_idempotent_witness :
    kmUnbounded.maxIterations = 0 ∧
    stepA 2 [[(0 : ℚ)], [2]] [0, 1] = [0, 1] ∧
    relabel 2 [0, 1] = [0, 1] ∧
    clusterFull kmUnbounded [[(0 : ℚ)], [2]] 2 [0, 1] = Except.ok
      { assignments := [0, 1], loopOutput := [0, 1], converged := true,
        iterationsUsed := 1, mergesPerformed := 0, workingClusters := 2 } := by
  refine ⟨rfl, ?_, ?_, ?_⟩
  · with_unfolding_all rfl
  · with_unfolding_all rfl
  · exact c5_idempotent kmUnbounded [[(0 : ℚ)], [2]] 2 [0, 1] rfl rfl
      (by omega) (by norm_num) (by norm_num) (by decide)
      (by with_unfolding_all rfl) (by with_unfolding_all rfl)

lemma livePairs_sorted_lex :
    ∀ live : List ℕ, live.Sorted (· < ·) →
      (livePairs live).Pairwise
        (fun p q : ℕ × ℕ => p.1 < q.1 ∨ (p.1 = q.1 ∧ p.2 < q.2)) := by
  intro live
  induction live with
  | nil => intro _; simp [livePairs]
  | cons i rest ih =>
    intro hs
    have hs' : rest.Sorted (· < ·) := hs.of_cons
    have hlt : ∀ j ∈ rest, i < j := (List.pairwise_cons.mp hs).1
    simp only [livePairs]
    rw [List.pairwise_append]
    refine ⟨?_, ih hs', ?_⟩
    · rw [List.pairwise_map]
      exact hs'.imp (fun h => Or.inr ⟨rfl, h⟩)
    · intro p hp q hq
      simp only [List.mem_map] at hp
      obtain ⟨j, _, rfl⟩ := hp
      exact Or.inl (hlt q.1 (livePairs_mem rest q hq).1)

/-- Claim C7: deterministic lowest-index-first tie-breaking.  First part:
during reassignment every point receives the index of a nearest centroid,
and every strictly lower centroid index is strictly farther away (so among
equidistant centroids the lowest index wins).  Second part: the merge
phase picks the pair at the first position of the candidate-pair list
achieving the minimal score — every earlier position scores strictly
worse.  Third part: for a sorted list of surviving cluster ids the
candidate-pair list is enumerated in strictly increasing lexicographic
order, so the first minimal position is the lexicographically lowest
closest pair. -/
theorem c7_tie_break :
    (∀ (data : List Point) (cents : List (Option Point)) (i : ℕ),
      i < data.length → 0 < cents.length →
      ((reassignAll data cents).getD i 0 < cents.length ∧
       (∀ j2 < cents.length,
         sqEuclid (data.getD i [])
             (centD cents ((reassignAll data cents).getD i 0)) ≤
           sqEuclid (data.getD i []) (centD cents j2)) ∧
       (∀ j2 < (reassignAll data cents).getD i 0,
         sqEuclid (data.getD i [])
             (centD cents ((reassignAll data cents).getD i 0)) <
           sqEuclid (data.getD i []) (centD cents j2)))) ∧
    (∀ (score : ℕ × ℕ → ℚ) (ps : List (ℕ × ℕ)), ps ≠ [] →
      (argminIdx (fun idx => score (ps.getD idx (0, 0))) ps.length <
        ps.length ∧
       chooseMergePair score ps =
         ps.getD (argminIdx (fun idx => score (ps.getD idx (0, 0)))
           ps.length) (0, 0) ∧
       (∀ m < ps.length,
         score (chooseMergePair score ps) ≤ score (ps.getD m (0, 0))) ∧
       (∀ m < argminIdx (fun idx => score (ps.getD idx (0, 0))) ps.length,
         score (chooseMergePair score ps) < score (ps.getD m (0, 0))))) ∧
    (∀ live : List ℕ, live.Sorted (· < ·) →
      (livePairs live).Pairwise
        (fun p q : ℕ × ℕ => p.1 < q.1 ∨ (p.1 = q.1 ∧ p.2 < q.2))) := by
  refine ⟨?_, ?_, livePairs_sorted_lex⟩
  · intro data cents i hi hW
    have hmap : (reassignAll data cents).getD i 0 =
        argminIdx (fun j => sqEuclid (data.getD i []) (centD cents j))
          cents.length := by
      unfold reassignAll
      rw [List.getD_eq_getElem _ _ (by simpa using hi), List.getElem_map,
        List.getD_eq_getElem _ _ hi]
    rw [hmap]
    exact argminIdx_spec _ cents.length hW
  · intro score ps hne
    have hlen : 0 < ps.length := List.length_pos.mpr hne
    obtain ⟨h1, h2, h3⟩ :=
      argminIdx_spec (fun idx => score (ps.getD idx (0, 0))) ps.length hlen
    refine ⟨h1, rfl, ?_, ?_⟩
    · intro m hm
      exact h2 m hm
    · intro m hm
      exact h3 m hm

/-- Witness for C7 at concrete inputs. -/
theorem c7_tie_break_witness :
    ((0 : ℕ) < 2 ∧ (0 : ℕ) < 2 ∧
      ((reassignAll [[(0 : ℚ)], [1]] [some [0], some [1]]).getD 0 0 < 2 ∧
       (∀ j2 < 2,
         sqEuclid ([[(0 : ℚ)], [1]].getD 0 [])
             (centD [some [0], some [1]]
               ((reassignAll [[(0 : ℚ)], [1]] [some [0], some [1]]).getD 0 0)) ≤
           sqEuclid ([[(0 : ℚ)], [1]].getD 0 [])
             (centD [some [0], some [1]] j2)) ∧
       (∀ j2 < (reassignAll [[(0 : ℚ)], [1]] [some [0], some [1]]).getD 0 0,
         sqEuclid ([[(0 : ℚ)], [1]].getD 0 [])
             (centD [some [0], some [1]]
               ((reassignAll [[(0 : ℚ)], [1]] [some [0], some [1]]).getD 0 0)) <
           sqEuclid ([[(0 : ℚ)], [1]].getD 0 [])
             (centD [some [0], some [1]] j2)))) ∧
    (([((0 : ℕ), (1 : ℕ)), (0, 2)] : List (ℕ × ℕ)) ≠ [] ∧
      (argminIdx
          (fun idx => ((([((0 : ℕ), (1 : ℕ)), (0, 2)] : List (ℕ × ℕ)).getD
            idx (0, 0)).2 : ℚ)) 2 < 2 ∧
       chooseMergePair
           (fun p => ((p.2 : ℚ)))
           ([((0 : ℕ), (1 : ℕ)), (0, 2)] : List (ℕ × ℕ)) =
         ([((0 : ℕ), (1 : ℕ)), (0, 2)] : List (ℕ × ℕ)).getD
           (argminIdx (fun idx =>
             ((([((0 : ℕ), (1 : ℕ)), (0, 2)] : List (ℕ × ℕ)).getD
               idx (0, 0)).2 : ℚ)) 2) (0, 0) ∧
       (∀ m < 2,
         ((chooseMergePair (fun p => ((p.2 : ℚ)))
             ([((0 : ℕ), (1 : ℕ)), (0, 2)] : List (ℕ × ℕ))).2 : ℚ) ≤
           ((([((0 : ℕ), (1 : ℕ)), (0, 2)] : List (ℕ × ℕ)).getD m (0, 0)).2 : ℚ)) ∧
       (∀ m < argminIdx (fun idx =>
           ((([((0 : ℕ), (1 : ℕ)), (0, 2)] : List (ℕ × ℕ)).getD
             idx (0, 0)).2 : ℚ)) 2,
         ((chooseMergePair (fun p => ((p.2 : ℚ)))
             ([((0 : ℕ), (1 : ℕ)), (0, 2)] : List (ℕ × ℕ))).2 : ℚ) <
           ((([((0 : ℕ), (1 : ℕ)), (0, 2)] : List (ℕ × ℕ)).getD m (0, 0)).2 : ℚ)))) ∧
    (([0, 1, 2] : List ℕ).Sorted (· < ·) ∧
      (livePairs [0, 1, 2]).Pairwise
        (fun p q : ℕ × ℕ => p.1 < q.1 ∨ (p.1 = q.1 ∧ p.2 < q.2))) := by
  obtain ⟨h1, h2, h3⟩ := c7_tie_break
  refine ⟨⟨by norm_num, by norm_num, h1 [[(0 : ℚ)], [1]] [some [0], some [1]] 0
      (by norm_num) (by norm_num)⟩,
    ⟨by simp, ?_⟩,
    ⟨by decide, h3 [0, 1, 2] (by decide)⟩⟩
  exact h2 (fun p => ((p.2 : ℚ))) [((0 : ℕ), (1 : ℕ)), (0, 2)] (by simp)

/-!  Termination development: basic sum and distance facts.  -/

lemma list_sum_eq_zero {l : List ℚ} (h0 : ∀ x ∈ l, 0 ≤ x)
    (hs : l.sum = 0) : ∀ x ∈ l, x = 0 := by
  induction l with
  | nil => intro x hx; exact absurd hx (by simp)
  | cons y l ih =>
    have hy : 0 ≤ y := h0 y (by simp)
    have hl : 0 ≤ l.sum := List.sum_nonneg (fun x hx => h0 x (by simp [hx]))
    rw [List.sum_cons] at hs
    have hy0 : y = 0 := by linarith
    have hl0 : l.sum = 0 := by linarith
    intro x hx
    rcases List.mem_cons.mp hx with rfl | hx2
    · exact hy0
    · exact ih (fun z hz => h0 z (by simp [hz])) hl0 x hx2

lemma range_map_sum (n : ℕ) (f : ℕ → ℚ) :
    ((List.range n).map f).sum = ∑ i ∈ Finset.range n, f i := by
  induction n with
  | zero => simp
  | succ n ih => rw [List.range_succ, Finset.sum_range_succ, List.map_append,
      List.sum_append, ih]; simp

lemma sqEuclid_nonneg : ∀ (p q : Point), 0 ≤ sqEuclid p q := by
  intro p
  induction p with
  | nil => intro q; simp [sqEuclid]
  | cons x p ih =>
    intro q
    cases q with
    | nil => simp [sqEuclid]
    | cons y q =>
      have h1 := ih q
      unfold sqEuclid at h1 ⊢
      simp only [List.zipWith_cons_cons, List.sum_cons]
      have h2 : 0 ≤ (x - y) ^ 2 := sq_nonneg _
      linarith

lemma sqEuclid_self (p : Point) : sqEuclid p p = 0 := by
  unfold sqEuclid
  induction p with
  | nil => simp
  | cons x p ih => simp [ih]

lemma coord_nil (d : ℕ) : coord [] d = 0 := rfl

lemma coord_cons_zero (x : ℚ) (p : Point) : coord (x :: p) 0 = x := rfl

lemma coord_cons_succ (x : ℚ) (p : Point) (d : ℕ) :
    coord (x :: p) (d + 1) = coord p d := rfl

lemma sqEuclid_coords : ∀ (p q : Point) (dim : ℕ), p.length = dim →
    q.length = dim →
    sqEuclid p q = ∑ d ∈ Finset.range dim, (coord p d - coord q d) ^ 2 := by
  intro p
  induction p with
  | nil =>
    intro q dim hp hq
    have : dim = 0 := by simpa using hp.symm
    subst this
    simp [sqEuclid]
  | cons x p ih =>
    intro q dim hp hq
    cases q with
    | nil => simp at hp hq; omega
    | cons y q =>
      obtain ⟨dim2, rfl⟩ : ∃ d2, dim = d2 + 1 :=
        ⟨dim - 1, by simp at hp; omega⟩
      have hp2 : p.length = dim2 := by simpa using hp
      have hq2 : q.length = dim2 := by simpa using hq
      unfold sqEuclid at ih ⊢
      simp only [List.zipWith_cons_cons, List.sum_cons]
      rw [Finset.sum_range_succ', ih q dim2 hp2 hq2]
      simp only [coord_cons_succ, coord_cons_zero]
      ring

lemma sqEuclid_eq_zero {p q : Point} {dim : ℕ} (hp : p.length = dim)
    (hq : q.length = dim) (h : sqEuclid p q = 0) : p = q := by
  rw [sqEuclid_coords p q dim hp hq] at h
  have hall := (Finset.sum_eq_zero_iff_of_nonneg
    (fun d _ => sq_nonneg (coord p d - coord q d))).mp h
  refine List.ext_getElem (by omega) ?_
  intro i h1 h2
  have hi : i ∈ Finset.range dim := Finset.mem_range.mpr (by omega)
  have := hall i hi
  have hcoord : coord p i = coord q i := by
    have := sq_eq_zero_iff.mp this
    linarith
  have hgp : coord p i = p[i] := by
    unfold coord
    rw [List.getD_eq_getElem p 0 h1]
  have hgq : coord q i = q[i] := by
    unfold coord
    rw [List.getD_eq_getElem q 0 h2]
  rw [← hgp, ← hgq, hcoord]

lemma length_vecAdd (p q : Point) :
    (vecAdd p q).length = min p.length q.length := by
  simp [vecAdd]

lemma coord_vecAdd : ∀ (p q : Point), p.length = q.length → ∀ d,
    coord (vecAdd p q) d = coord p d + coord q d := by
  intro p
  induction p with
  | nil =>
    intro q h d
    cases q with
    | nil => simp [vecAdd, coord_nil]
    | cons y q => simp at h
  | cons x p ih =>
    intro q h d
    cases q with
    | nil => simp at h
    | cons y q =>
      cases d with
      | zero => simp [vecAdd, coord_cons_zero]
      | succ d =>
        have h2 : p.length = q.length := by simpa using h
        have := ih q h2 d
        simpa [vecAdd, coord_cons_succ] using this

lemma coord_vecScale : ∀ (p : Point) (c : ℚ) (d : ℕ),
    coord (vecScale c p) d = c * coord p d := by
  intro p
  induction p with
  | nil => intro c d; simp [vecScale, coord_nil]
  | cons x p ih =>
    intro c d
    cases d with
    | zero => simp [vecScale, coord_cons_zero]
    | succ d => simpa [vecScale, coord_cons_succ] using ih c d

lemma foldl_vecAdd_length : ∀ (ps : List Point) (acc : Point),
    (∀ p ∈ ps, p.length = acc.length) →
    (ps.foldl vecAdd acc).length = acc.length := by
  intro ps
  induction ps with
  | nil => intro acc _; rfl
  | cons p ps ih =>
    intro acc hlen
    rw [List.foldl_cons]
    have h1 : (vecAdd acc p).length = acc.length := by
      rw [length_vecAdd, hlen p (by simp)]
      omega
    rw [ih (vecAdd acc p) (fun q hq => by rw [h1]; exact hlen q (by simp [hq])),
      h1]

lemma coord_foldl_vecAdd : ∀ (ps : List Point) (acc : Point) (d : ℕ),
    (∀ p ∈ ps, p.length = acc.length) →
    coord (ps.foldl vecAdd acc) d =
      coord acc d + (ps.map (fun p => coord p d)).sum := by
  intro ps
  induction ps with
  | nil => intro acc d _; simp
  | cons p ps ih =>
    intro acc d hlen
    rw [List.foldl_cons]
    have h1 : (vecAdd acc p).length = acc.length := by
      rw [length_vecAdd, hlen p (by simp)]
      omega
    rw [ih (vecAdd acc p) d
      (fun q hq => by rw [h1]; exact hlen q (by simp [hq]))]
    rw [coord_vecAdd acc p (hlen p (by simp)).symm d]
    simp only [List.map_cons, List.sum_cons]
    ring

lemma length_vecSum {S : List Point} {dim : ℕ} (hne : S ≠ [])
    (hdim : ∀ p ∈ S, p.length = dim) : (vecSum S).length = dim := by
  match S, hne with
  | p :: ps, _ =>
    show (ps.foldl vecAdd p).length = dim
    rw [foldl_vecAdd_length ps p (fun q hq => by
      rw [hdim q (by simp [hq]), hdim p (by simp)])]
    exact hdim p (by simp)

lemma coord_vecSum {S : List Point} {dim : ℕ} (hne : S ≠ [])
    (hdim : ∀ p ∈ S, p.length = dim) (d : ℕ) :
    coord (vecSum S) d = (S.map (fun p => coord p d)).sum := by
  match S, hne with
  | p :: ps, _ =>
    show coord (ps.foldl vecAdd p) d = _
    rw [coord_foldl_vecAdd ps p d (fun q hq => by
      rw [hdim q (by simp [hq]), hdim p (by simp)])]
    simp only [List.map_cons, List.sum_cons]

lemma length_centroidOf {S : List Point} {dim : ℕ} (hne : S ≠ [])
    (hdim : ∀ p ∈ S, p.length = dim) : (centroidOf S).length = dim := by
  unfold centroidOf vecScale
  rw [List.length_map]
  exact length_vecSum hne hdim

lemma coord_centroidOf {S : List Point} {dim : ℕ} (hne : S ≠ [])
    (hdim : ∀ p ∈ S, p.length = dim) (d : ℕ) :
    coord (centroidOf S) d = (S.map (fun p => coord p d)).sum / S.length := by
  unfold centroidOf
  rw [coord_vecScale, coord_vecSum hne hdim]
  rw [div_eq_mul_inv, mul_comm]
  ring

lemma sum_sq_expand (l : List ℚ) (c : ℚ) :
    (l.map (fun x => (x - c) ^ 2)).sum =
      (l.map (fun x => x ^ 2)).sum - 2 * c * l.sum + l.length * c ^ 2 := by
  induction l with
  | nil => simp
  | cons y l ih =>
    simp only [List.map_cons, List.sum_cons, List.length_cons]
    rw [ih]
    push_cast
    ring

lemma mean_identity (l : List ℚ) (hne : l ≠ []) (c : ℚ) :
    (l.map (fun x => (x - c) ^ 2)).sum =
      (l.map (fun x => (x - l.sum / l.length) ^ 2)).sum +
        l.length * (l.sum / l.length - c) ^ 2 := by
  have hn0 : 0 < l.length := List.length_pos.mpr hne
  have hn : (l.length : ℚ) ≠ 0 := by
    exact_mod_cast Nat.pos_iff_ne_zero.mp hn0
  rw [sum_sq_expand, sum_sq_expand]
  field_simp
  ring

lemma list_sum_finset_swap {α : Type} (S : List α) (t : Finset ℕ)
    (f : α → ℕ → ℚ) :
    (S.map (fun p => ∑ d ∈ t, f p d)).sum =
      ∑ d ∈ t, (S.map (fun p => f p d)).sum := by
  induction S with
  | nil => simp
  | cons p S ih =>
    simp only [List.map_cons, List.sum_cons, ih]
    rw [Finset.sum_add_distrib]

lemma centroid_min_identity {S : List Point} {dim : ℕ} (hne : S ≠ [])
    (hdim : ∀ p ∈ S, p.length = dim) (c : Point) (hc : c.length = dim) :
    (S.map (fun p => sqEuclid p c)).sum =
      (S.map (fun p => sqEuclid p (centroidOf S))).sum +
        S.length * sqEuclid (centroidOf S) c := by
  have hcl : (centroidOf S).length = dim := length_centroidOf hne hdim
  have h1 : (S.map (fun p => sqEuclid p c)).sum =
      ∑ d ∈ Finset.range dim,
        (S.map (fun p => (coord p d - coord c d) ^ 2)).sum := by
    rw [← list_sum_finset_swap]
    congr 1
    apply List.map_congr_left
    intro p hp
    exact sqEuclid_coords p c dim (hdim p hp) hc
  have h2 : (S.map (fun p => sqEuclid p (centroidOf S))).sum =
      ∑ d ∈ Finset.range dim,
        (S.map (fun p => (coord p d - coord (centroidOf S) d) ^ 2)).sum := by
    rw [← list_sum_finset_swap]
    congr 1
    apply List.map_congr_left
    intro p hp
    exact sqEuclid_coords p (centroidOf S) dim (hdim p hp) hcl
  have h3 : sqEuclid (centroidOf S) c =
      ∑ d ∈ Finset.range dim, (coord (centroidOf S) d - coord c d) ^ 2 :=
    sqEuclid_coords _ _ dim hcl hc
  rw [h1, h2, h3, Finset.mul_sum, ← Finset.sum_add_distrib]
  apply Finset.sum_congr rfl
  intro d _
  have hlne : S.map (fun p => coord p d) ≠ [] := by
    simpa using hne
  have hid := mean_identity (S.map (fun p => coord p d)) hlne (coord c d)
  have hmu : (S.map (fun p => coord p d)).sum /
      ((S.map (fun p => coord p d)).length : ℚ) = coord (centroidOf S) d := by
    rw [List.length_map, coord_centroidOf hne hdim]
  rw [List.map_map, List.map_map] at hid
  have e1 : ((fun x => (x - coord c d) ^ 2) ∘ fun p => coord p d) =
      fun p => (coord p d - coord c d) ^ 2 := rfl
  rw [e1] at hid
  rw [hmu] at hid
  have e2 : ((fun x => (x - coord (centroidOf S) d) ^ 2) ∘
      fun p => coord p d) =
      fun p => (coord p d - coord (centroidOf S) d) ^ 2 := rfl
  rw [e2] at hid
  rw [hid, List.length_map]

lemma reassignAll_getD (data : List Point) (cents : List (Option Point))
    {i : ℕ} (hi : i < data.length) :
    (reassignAll data cents).getD i 0 =
      argminIdx (fun j => sqEuclid (data.getD i []) (centD cents j))
        cents.length := by
  unfold reassignAll
  rw [List.getD_eq_getElem _ _ (by simpa using hi), List.getElem_map,
    List.getD_eq_getElem _ _ hi]

lemma costJ_nonneg (data : List Point) (cents : List (Option Point))
    (b : List ℕ) : 0 ≤ costJ data cents b :=
  Finset.sum_nonneg (fun i _ => sqEuclid_nonneg _ _)

set_option maxHeartbeats 1000000 in
lemma costJ_reassign_le (data : List Point) (cents : List (Option Point))
    (b : List ℕ) (hW : 0 < cents.length)
    (hb : ∀ i < data.length, b.getD i 0 < cents.length) :
    costJ data cents (reassignAll data cents) ≤ costJ data cents b := by
  unfold costJ
  apply Finset.sum_le_sum
  intro i hi
  rw [Finset.mem_range] at hi
  rw [reassignAll_getD data cents hi]
  exact (argminIdx_spec (fun j => sqEuclid (data.getD i []) (centD cents j))
    cents.length hW).2.1 (b.getD i 0) (hb i hi)

lemma costJ_fiber (data : List Point) (cents : List (Option Point))
    (b : List ℕ) (W : ℕ) (hb : ∀ i < data.length, b.getD i 0 < W) :
    costJ data cents b = ∑ j ∈ Finset.range W,
      ∑ i ∈ (Finset.range data.length).filter (fun i => b.getD i 0 = j),
        sqEuclid (data.getD i []) (centD cents j) := by
  unfold costJ
  rw [← Finset.sum_fiberwise_of_maps_to
    (g := fun i => b.getD i 0) (t := Finset.range W)
    (fun i hi => Finset.mem_range.mpr (hb i (Finset.mem_range.mp hi)))]
  apply Finset.sum_congr rfl
  intro j _
  apply Finset.sum_congr rfl
  intro i hi
  rw [(Finset.mem_filter.mp hi).2]

lemma fiber_sum_eq_members :
    ∀ (data : List Point) (b : List ℕ) (j : ℕ) (F : Point → ℚ),
      b.length = data.length →
      (((List.range data.length).filter (fun i => b.getD i 0 = j)).map
        (fun i => F (data.getD i []))).sum =
      ((membersData data b j).map F).sum := by
  intro data
  induction data with
  | nil =>
    intro b j F hlen
    simp [membersData]
  | cons p data ih =>
    intro b j F hlen
    cases b with
    | nil => simp at hlen
    | cons x b =>
      have hlen2 : b.length = data.length := by simpa using hlen
      have hmem : membersData (p :: data) (x :: b) j =
          (if x = j then [p] else []) ++ membersData data b j := by
        unfold membersData
        rw [List.zip_cons_cons, List.filterMap_cons]
        by_cases hx : x = j
        · simp [hx]
        · simp [hx]
      have hpred : ∀ i ∈ List.range data.length,
          ((fun i => decide ((x :: b).getD i 0 = j)) ∘ Nat.succ) i =
            (fun i => decide (b.getD i 0 = j)) i := by
        intro i _
        rfl
      have hGmap : ∀ L : List ℕ,
          (L.map Nat.succ).map (fun i => F ((p :: data).getD i [])) =
            L.map (fun i => F (data.getD i [])) := by
        intro L
        rw [List.map_map]
        apply List.map_congr_left
        intro i _
        rfl
      show (((List.range (data.length + 1)).filter
          (fun i => decide ((x :: b).getD i 0 = j))).map
            (fun i => F ((p :: data).getD i []))).sum = _
      rw [List.range_succ_eq_map, List.filter_cons, List.filter_map,
        List.filter_congr hpred, hmem, List.map_append, List.sum_append,
        ← ih b j F hlen2]
      by_cases hx : x = j
      · have hd : decide ((x :: b).getD 0 0 = j) = true := by
          simp [hx]
        rw [if_pos hd, List.map_cons, List.sum_cons, hGmap]
        simp [hx]
      · have hd : ¬ decide ((x :: b).getD 0 0 = j) = true := by
          simp [hx]
        rw [if_neg hd, hGmap]
        simp [hx]

lemma membersData_subset {data : List Point} {b : List ℕ} {j : ℕ} :
    ∀ p ∈ membersData data b j, p ∈ data := by
  intro p hp
  unfold membersData at hp
  obtain ⟨⟨u, v⟩, huv, hval⟩ := List.mem_filterMap.mp hp
  by_cases hv : v = j
  · simp only [hv, if_pos rfl] at hval
    cases hval
    exact (List.of_mem_zip huv).1
  · simp [hv] at hval

lemma centD_computeCentroids {data : List Point} {b : List ℕ} {W j : ℕ}
    (hj : j < W) (hne : membersData data b j ≠ []) :
    centD (computeCentroids data b W) j = centroidOf (membersData data b j) := by
  unfold centD computeCentroids
  rw [List.getD_eq_getElem _ _ (by simpa using hj)]
  rw [List.getElem_map]
  simp only [List.getElem_range, if_neg hne]
  rfl

lemma finset_filter_sum_eq_list (n : ℕ) (p : ℕ → Prop) [DecidablePred p]
    (F : ℕ → ℚ) :
    ∑ i ∈ (Finset.range n).filter p, F i =
      (((List.range n).filter (fun i => p i)).map F).sum := by
  induction n with
  | zero => simp
  | succ n ih =>
    rw [Finset.range_succ, Finset.filter_insert, List.range_succ,
      List.filter_append, List.map_append, List.sum_append]
    by_cases hp : p n
    · rw [if_pos hp, Finset.sum_insert (by simp), ih]
      simp [hp]
      ring
    · rw [if_neg hp, ih]
      simp [hp]

lemma fiber_sum_members (data : List Point) (b : List ℕ) (j : ℕ)
    (cents : List (Option Point)) (hblen : b.length = data.length) :
    ∑ i ∈ (Finset.range data.length).filter (fun i => b.getD i 0 = j),
      sqEuclid (data.getD i []) (centD cents j) =
    ((membersData data b j).map (fun p => sqEuclid p (centD cents j))).sum := by
  rw [finset_filter_sum_eq_list data.length (fun i => b.getD i 0 = j)
    (fun i => sqEuclid (data.getD i []) (centD cents j))]
  exact fiber_sum_eq_members data b j (fun p => sqEuclid p (centD cents j))
    hblen

lemma costJ_centroid_le (data : List Point) (b : List ℕ) (W dim : ℕ)
    (X : List (Option Point))
    (hblen : b.length = data.length)
    (hbW : ∀ i < data.length, b.getD i 0 < W)
    (hdim : ∀ p ∈ data, p.length = dim)
    (hXdim : ∀ j < W, membersData data b j ≠ [] →
      (centD X j).length = dim) :
    costJ data (computeCentroids data b W) b ≤ costJ data X b := by
  rw [costJ_fiber data _ b W hbW, costJ_fiber data X b W hbW]
  apply Finset.sum_le_sum
  intro j hj
  rw [Finset.mem_range] at hj
  rw [fiber_sum_members data b j _ hblen, fiber_sum_members data b j X hblen]
  by_cases hne : membersData data b j = []
  · rw [hne]
    simp
  · rw [centD_computeCentroids hj hne]
    have hmdim : ∀ p ∈ membersData data b j, p.length = dim :=
      fun p hp => hdim p (membersData_subset p hp)
    have hid := centroid_min_identity hne hmdim (centD X j) (hXdim j hj hne)
    have hnn : 0 ≤ ((membersData data b j).length : ℚ) *
        sqEuclid (centroidOf (membersData data b j)) (centD X j) :=
      mul_nonneg (by positivity) (sqEuclid_nonneg _ _)
    linarith

/-!  Termination development: the empty-cluster donation pass.  -/

lemma getD_set_ne {α : Type} (l : List α) (d : α) {i j : ℕ} (x : α)
    (h : i ≠ j) : (l.set i x).getD j d = l.getD j d := by
  by_cases hj : j < l.length
  · rw [List.getD_eq_getElem _ _ (by simpa using hj),
      List.getD_eq_getElem _ _ hj]
    exact List.getElem_set_ne h _
  · rw [List.getD_eq_default _ _ (by simpa using not_lt.mp hj),
      List.getD_eq_default _ _ (not_lt.mp hj)]

lemma getD_set_self {α : Type} (l : List α) (d : α) {i : ℕ} (x : α)
    (h : i < l.length) : (l.set i x).getD i d = x := by
  rw [List.getD_eq_getElem _ _ (by simpa using h)]
  exact List.getElem_set_self _

lemma foldl_max_mem (g : ℕ → ℚ) :
    ∀ (l : List ℕ) (init : ℕ),
      l.foldl (fun best j => if g j > g best then j else best) init ∈
        init :: l := by
  intro l
  induction l with
  | nil => intro init; simp
  | cons j l ih =>
    intro init
    rw [List.foldl_cons]
    by_cases hc : g j > g init
    · rw [if_pos hc]
      rcases List.mem_cons.mp (ih j) with h | h
      · rw [h]; simp
      · simp [h]
    · rw [if_neg hc]
      rcases List.mem_cons.mp (ih init) with h | h
      · rw [h]; simp
      · simp [h]

lemma foldl_max_ge (g : ℕ → ℚ) :
    ∀ (l : List ℕ) (init : ℕ), ∀ x ∈ init :: l,
      g x ≤ g (l.foldl (fun best j => if g j > g best then j else best) init) := by
  intro l
  induction l with
  | nil =>
    intro init x hx
    rcases List.mem_cons.mp hx with rfl | hx
    · exact le_refl _
    · exact absurd hx (by simp)
  | cons j l ih =>
    intro init x hx
    rw [List.foldl_cons]
    have hinit2 : g init ≤ g (if g j > g init then j else init) := by
      by_cases hc : g j > g init
      · rw [if_pos hc]; exact le_of_lt hc
      · rw [if_neg hc]
    have hj2 : g j ≤ g (if g j > g init then j else init) := by
      by_cases hc : g j > g init
      · rw [if_pos hc]
      · rw [if_neg hc]; exact le_of_not_lt hc
    rcases List.mem_cons.mp hx with rfl | hx2
    · exact le_trans hinit2
        (ih _ _ (List.mem_cons_self _ _))
    · rcases List.mem_cons.mp hx2 with rfl | hx3
      · exact le_trans hj2 (ih _ _ (List.mem_cons_self _ _))
      · exact ih _ x (List.mem_cons_of_mem _ hx3)

lemma mem_memberIdxs {a : List ℕ} {j i : ℕ} :
    i ∈ memberIdxs a j ↔ i < a.length ∧ a.getD i 0 = j := by
  simp [memberIdxs]

lemma membersData_getD_mem {data : List Point} {a : List ℕ} {j i : ℕ}
    (hlen : a.length = data.length) (hi : i < data.length)
    (hij : a.getD i 0 = j) : data.getD i [] ∈ membersData data a j := by
  unfold membersData
  apply List.mem_filterMap.mpr
  refine ⟨(data.getD i [], j), ?_, by simp⟩
  have hizip : i < (data.zip a).length := by
    rw [List.length_zip]
    omega
  have hzip : (data.zip a)[i] = (data.getD i [], j) := by
    rw [List.getElem_zip]
    rw [← List.getD_eq_getElem data [] hi, ← hij,
      ← List.getD_eq_getElem a 0 (by omega)]
  rw [← hzip]
  exact List.getElem_mem _

lemma membersData_ne_iff {data : List Point} {a : List ℕ} {j : ℕ}
    (hlen : a.length = data.length) :
    membersData data a j ≠ [] ↔ ∃ i < data.length, a.getD i 0 = j := by
  constructor
  · intro hne
    obtain ⟨p, hp⟩ := List.exists_mem_of_ne_nil _ hne
    unfold membersData at hp
    obtain ⟨⟨u, v⟩, huv, hval⟩ := List.mem_filterMap.mp hp
    obtain ⟨k, hk, hkval⟩ := List.mem_iff_getElem.mp huv
    rw [List.getElem_zip] at hkval
    have hklen : k < data.length := by
      rw [List.length_zip] at hk
      omega
    by_cases hv : v = j
    · refine ⟨k, hklen, ?_⟩
      have hka : k < a.length := by omega
      have : a[k] = v := by
        have := congrArg Prod.snd hkval
        simpa using this
      rw [List.getD_eq_getElem a 0 (by omega), this, hv]
    · simp [hv] at hval
  · intro ⟨i, hi, hij⟩
    exact List.ne_nil_of_mem (membersData_getD_mem hlen hi hij)

lemma clusterVar_nonneg (data : List Point) (a : List ℕ)
    (cents : List (Option Point)) (j : ℕ) :
    0 ≤ clusterVar data a cents j := by
  unfold clusterVar
  apply div_nonneg
  · apply List.sum_nonneg
    intro x hx
    obtain ⟨p, _, rfl⟩ := List.mem_map.mp hx
    exact sqEuclid_nonneg _ _
  · positivity

lemma maxVarIdx_spec (data : List Point) (a : List ℕ)
    (cents : List (Option Point))
    (hlen : a.length = data.length) (hn : 0 < data.length)
    (hids : ∀ i < data.length, a.getD i 0 < cents.length) :
    maxVarIdx data a cents < cents.length ∧
    membersData data a (maxVarIdx data a cents) ≠ [] ∧
    (∀ j < cents.length, membersData data a j ≠ [] →
      clusterVar data a cents j ≤ clusterVar data a cents (maxVarIdx data a cents)) := by
  have hne : (List.range cents.length).filter
      (fun j => membersData data a j ≠ []) ≠ [] := by
    apply List.ne_nil_of_mem (a := a.getD 0 0)
    rw [List.mem_filter]
    constructor
    · exact List.mem_range.mpr (hids 0 hn)
    · simp only [decide_eq_true_eq]
      exact (membersData_ne_iff hlen).mpr ⟨0, hn, rfl⟩
  set ne2 := (List.range cents.length).filter
    (fun j => membersData data a j ≠ []) with hne2
  have hhead : ne2.headD 0 ∈ ne2 := by
    match h : ne2, hne with
    | x :: l, _ => simp
  have hmem : maxVarIdx data a cents ∈ ne2 := by
    unfold maxVarIdx
    rw [← hne2]
    rcases List.mem_cons.mp
      (foldl_max_mem (clusterVar data a cents) ne2 (ne2.headD 0)) with h | h
    · rw [h]; exact hhead
    · exact h
  have hdec : ∀ j, j ∈ ne2 ↔ j < cents.length ∧ membersData data a j ≠ [] := by
    intro j
    rw [hne2, List.mem_filter]
    simp
  refine ⟨((hdec _).mp hmem).1, ((hdec _).mp hmem).2, ?_⟩
  intro j hj hjne
  unfold maxVarIdx
  rw [← hne2]
  exact foldl_max_ge (clusterVar data a cents) ne2 (ne2.headD 0) j
    (List.mem_cons_of_mem _ ((hdec j).mpr ⟨hj, hjne⟩))

/-- Donor point index of one empty-cluster repair: the farthest point of
the highest-variance cluster (mirrors the inline selection in
`donateOne`). -/
def donorIdx (data : List Point) (a : List ℕ)
    (cents : List (Option Point)) : ℕ :=
  let b := maxVarIdx data a cents
  let cb := centD cents b
  let idxs := memberIdxs a b
  idxs.foldl (fun best i =>
    if sqEuclid (data.getD i []) cb > sqEuclid (data.getD best []) cb then i
    else best) (idxs.headD 0)

lemma donateOne_eq (data : List Point) (st : List ℕ × List (Option Point))
    (e : ℕ) :
    donateOne data st e =
      (st.1.set (donorIdx data st.1 st.2) e,
       st.2.set e (some (data.getD (donorIdx data st.1 st.2) []))) := rfl

set_option maxHeartbeats 1000000 in
lemma donorIdx_spec (data : List Point) (a : List ℕ)
    (cents : List (Option Point))
    (hlen : a.length = data.length) (hn : 0 < data.length)
    (hids : ∀ i < data.length, a.getD i 0 < cents.length) :
    donorIdx data a cents < data.length ∧
    a.getD (donorIdx data a cents) 0 = maxVarIdx data a cents ∧
    (∀ i < data.length, a.getD i 0 = maxVarIdx data a cents →
      sqEuclid (data.getD i []) (centD cents (maxVarIdx data a cents)) ≤
        sqEuclid (data.getD (donorIdx data a cents) [])
          (centD cents (maxVarIdx data a cents))) := by
  obtain ⟨hblt, hbne, _⟩ := maxVarIdx_spec data a cents hlen hn hids
  have hidxne : memberIdxs a (maxVarIdx data a cents) ≠ [] := by
    obtain ⟨i, hi, hij⟩ := (membersData_ne_iff hlen).mp hbne
    exact List.ne_nil_of_mem (mem_memberIdxs.mpr ⟨by omega, hij⟩)
  set idxs := memberIdxs a (maxVarIdx data a cents) with hidxs
  have hhead : idxs.headD 0 ∈ idxs := by
    match h : idxs, hidxne with
    | x :: l, _ => simp
  have hdonor_mem : donorIdx data a cents ∈ idxs := by
    simp only [donorIdx]
    rw [← hidxs]
    rcases List.mem_cons.mp (foldl_max_mem
      (fun i => sqEuclid (data.getD i [])
        (centD cents (maxVarIdx data a cents))) idxs (idxs.headD 0)) with h | h
    · rw [h]; exact hhead
    · exact h
  obtain ⟨hd1, hd2⟩ := mem_memberIdxs.mp hdonor_mem
  refine ⟨by omega, hd2, ?_⟩
  intro i hi hib
  simp only [donorIdx]
  rw [← hidxs]
  exact foldl_max_ge
    (fun i2 => sqEuclid (data.getD i2 [])
      (centD cents (maxVarIdx data a cents))) idxs (idxs.headD 0) i
    (List.mem_cons_of_mem _ (mem_memberIdxs.mpr ⟨by omega, hib⟩))

set_option maxHeartbeats 1000000 in
lemma donateOne_cost (data : List Point) (st : List ℕ × List (Option Point))
    (e : ℕ)
    (hlen1 : st.1.length = data.length)
    (hlen2 : e < st.2.length)
    (hn : 0 < data.length)
    (hids : ∀ i < data.length, st.1.getD i 0 < st.2.length)
    (hfree : ∀ i < data.length, st.1.getD i 0 ≠ e) :
    costJ data (donateOne data st e).2 (donateOne data st e).1 =
      costJ data st.2 st.1 -
        sqEuclid (data.getD (donorIdx data st.1 st.2) [])
          (centD st.2 (maxVarIdx data st.1 st.2)) := by
  obtain ⟨hdlt, hdasg, _⟩ := donorIdx_spec data st.1 st.2 hlen1 hn hids
  rw [donateOne_eq]
  unfold costJ
  have hdmem : donorIdx data st.1 st.2 ∈ Finset.range data.length :=
    Finset.mem_range.mpr hdlt
  rw [← Finset.add_sum_erase _ _ hdmem, ← Finset.add_sum_erase _ _ hdmem]
  have hdonor_term :
      sqEuclid (data.getD (donorIdx data st.1 st.2) [])
        (centD (st.2.set e (some (data.getD (donorIdx data st.1 st.2) [])))
          ((st.1.set (donorIdx data st.1 st.2) e).getD
            (donorIdx data st.1 st.2) 0)) = 0 := by
    rw [getD_set_self st.1 0 e (by omega)]
    unfold centD
    rw [getD_set_self st.2 none _ hlen2]
    exact sqEuclid_self _
  have hother : ∀ i ∈ (Finset.range data.length).erase
      (donorIdx data st.1 st.2),
      sqEuclid (data.getD i [])
        (centD (st.2.set e (some (data.getD (donorIdx data st.1 st.2) [])))
          ((st.1.set (donorIdx data st.1 st.2) e).getD i 0)) =
      sqEuclid (data.getD i []) (centD st.2 (st.1.getD i 0)) := by
    intro i hi
    obtain ⟨hine, hirange⟩ := Finset.mem_erase.mp hi
    have hilt : i < data.length := Finset.mem_range.mp hirange
    rw [getD_set_ne st.1 0 e (fun h => hine h.symm)]
    unfold centD
    rw [getD_set_ne st.2 none _ (fun h => hfree i hilt h.symm)]
  rw [hdonor_term, Finset.sum_congr rfl hother, hdasg]
  ring

set_option maxHeartbeats 1000000 in
lemma donation_fold (data : List Point) (W dim : ℕ) (hn : 0 < data.length)
    (hdim : ∀ p ∈ data, p.length = dim) :
    ∀ (es : List ℕ) (st : List ℕ × List (Option Point)),
      st.1.length = data.length → st.2.length = W →
      (∀ i < data.length, st.1.getD i 0 < W) →
      (∀ j < W, ∀ p : Point, st.2.getD j none = some p → p.length = dim) →
      (∀ e ∈ es, e < W ∧ ∀ i < data.length, st.1.getD i 0 ≠ e) →
      es.Nodup →
      (∀ j < W, st.2.getD j none = none → j ∈ es) →
      (costJ data (es.foldl (donateOne data) st).2
          (es.foldl (donateOne data) st).1 ≤ costJ data st.2 st.1 ∧
       (es.foldl (donateOne data) st).1.length = data.length ∧
       (es.foldl (donateOne data) st).2.length = W ∧
       (∀ i < data.length, (es.foldl (donateOne data) st).1.getD i 0 < W) ∧
       (∀ j < W, ∀ p : Point,
         (es.foldl (donateOne data) st).2.getD j none = some p →
           p.length = dim) ∧
       (∀ j < W, (es.foldl (donateOne data) st).2.getD j none ≠ none) ∧
       (∀ j < W, j ∉ es →
         (es.foldl (donateOne data) st).2.getD j none = st.2.getD j none) ∧
       (es ≠ [] → costJ data (es.foldl (donateOne data) st).2
          (es.foldl (donateOne data) st).1 ≤
         costJ data st.2 st.1 -
           sqEuclid (data.getD (donorIdx data st.1 st.2) [])
             (centD st.2 (maxVarIdx data st.1 st.2)))) := by
  intro es
  induction es with
  | nil =>
    intro st h1 h2 h3 h4 h5 h6 h7
    refine ⟨le_refl _, h1, h2, h3, h4, ?_, fun j _ _ => rfl, fun h => absurd rfl h⟩
    intro j hj hnone
    exact absurd (h7 j hj hnone) (by simp)
  | cons e es ih =>
    intro st h1 h2 h3 h4 h5 h6 h7
    obtain ⟨helt, hefree⟩ := h5 e (by simp)
    have hids2 : ∀ i < data.length, st.1.getD i 0 < st.2.length := by
      intro i hi
      rw [h2]
      exact h3 i hi
    obtain ⟨hdlt, hdasg, _⟩ := donorIdx_spec data st.1 st.2 h1 hn hids2
    have hcost_eq := donateOne_cost data st e h1 (by omega) hn hids2 hefree
    have hdrop_nn : 0 ≤ sqEuclid (data.getD (donorIdx data st.1 st.2) [])
        (centD st.2 (maxVarIdx data st.1 st.2)) := sqEuclid_nonneg _ _
    set st2 := donateOne data st e with hst2
    have hst2eq : st2 = (st.1.set (donorIdx data st.1 st.2) e,
        st.2.set e (some (data.getD (donorIdx data st.1 st.2) []))) := by
      rw [hst2, donateOne_eq]
    have g1 : st2.1.length = data.length := by
      rw [hst2eq]
      simpa using h1
    have g2 : st2.2.length = W := by
      rw [hst2eq]
      simpa using h2
    have g3 : ∀ i < data.length, st2.1.getD i 0 < W := by
      intro i hi
      rw [hst2eq]
      by_cases hieq : donorIdx data st.1 st.2 = i
      · rw [show (st.1.set (donorIdx data st.1 st.2) e,
          st.2.set e (some (data.getD (donorIdx data st.1 st.2) []))).1 =
            st.1.set (donorIdx data st.1 st.2) e from rfl]
        rw [hieq, getD_set_self st.1 0 e (by omega)]
        exact helt
      · rw [show (st.1.set (donorIdx data st.1 st.2) e,
          st.2.set e (some (data.getD (donorIdx data st.1 st.2) []))).1 =
            st.1.set (donorIdx data st.1 st.2) e from rfl]
        rw [getD_set_ne st.1 0 e hieq]
        exact h3 i hi
    have g4 : ∀ j < W, ∀ p : Point, st2.2.getD j none = some p →
        p.length = dim := by
      intro j hj p hp
      rw [hst2eq] at hp
      by_cases hje : e = j
      · rw [show (st.1.set (donorIdx data st.1 st.2) e,
          st.2.set e (some (data.getD (donorIdx data st.1 st.2) []))).2 =
            st.2.set e (some (data.getD (donorIdx data st.1 st.2) []))
          from rfl] at hp
        rw [hje, getD_set_self st.2 none _ (by omega)] at hp
        have hpd : p = data.getD (donorIdx data st.1 st.2) [] := by
          injection hp.symm
        rw [hpd]
        apply hdim
        rw [List.getD_eq_getElem data [] hdlt]
        exact List.getElem_mem _
      · rw [show (st.1.set (donorIdx data st.1 st.2) e,
          st.2.set e (some (data.getD (donorIdx data st.1 st.2) []))).2 =
            st.2.set e (some (data.getD (donorIdx data st.1 st.2) []))
          from rfl] at hp
        rw [getD_set_ne st.2 none _ hje] at hp
        exact h4 j hj p hp
    have g5 : ∀ e2 ∈ es, e2 < W ∧
        ∀ i < data.length, st2.1.getD i 0 ≠ e2 := by
      intro e2 he2
      obtain ⟨h2lt, h2free⟩ := h5 e2 (by simp [he2])
      refine ⟨h2lt, ?_⟩
      intro i hi
      rw [hst2eq]
      by_cases hieq : donorIdx data st.1 st.2 = i
      · rw [show (st.1.set (donorIdx data st.1 st.2) e,
          st.2.set e (some (data.getD (donorIdx data st.1 st.2) []))).1 =
            st.1.set (donorIdx data st.1 st.2) e from rfl]
        rw [hieq, getD_set_self st.1 0 e (by omega)]
        intro hee
        rw [hee] at h6
        exact (List.nodup_cons.mp h6).1 he2
      · rw [show (st.1.set (donorIdx data st.1 st.2) e,
          st.2.set e (some (data.getD (donorIdx data st.1 st.2) []))).1 =
            st.1.set (donorIdx data st.1 st.2) e from rfl]
        rw [getD_set_ne st.1 0 e hieq]
        exact h2free i hi
    have g7 : ∀ j < W, st2.2.getD j none = none → j ∈ es := by
      intro j hj hnone
      rw [hst2eq] at hnone
      by_cases hje : e = j
      · rw [show (st.1.set (donorIdx data st.1 st.2) e,
          st.2.set e (some (data.getD (donorIdx data st.1 st.2) []))).2 =
            st.2.set e (some (data.getD (donorIdx data st.1 st.2) []))
          from rfl] at hnone
        rw [hje, getD_set_self st.2 none _ (by omega)] at hnone
        cases hnone
      · rw [show (st.1.set (donorIdx data st.1 st.2) e,
          st.2.set e (some (data.getD (donorIdx data st.1 st.2) []))).2 =
            st.2.set e (some (data.getD (donorIdx data st.1 st.2) []))
          from rfl] at hnone
        rw [getD_set_ne st.2 none _ hje] at hnone
        rcases List.mem_cons.mp (h7 j hj hnone) with h | h
        · exact absurd h.symm hje
        · exact h
    obtain ⟨i1, i2, i3, i4, i5, i6, i7, _⟩ :=
      ih st2 g1 g2 g3 g4 g5 (List.nodup_cons.mp h6).2 g7
    have hfold : (e :: es).foldl (donateOne data) st =
        es.foldl (donateOne data) st2 := by
      rw [List.foldl_cons, hst2]
    rw [hfold]
    have hchain : costJ data (es.foldl (donateOne data) st2).2
        (es.foldl (donateOne data) st2).1 ≤
        costJ data st.2 st.1 - sqEuclid
          (data.getD (donorIdx data st.1 st.2) [])
          (centD st.2 (maxVarIdx data st.1 st.2)) := by
      linarith [i1, hcost_eq]
    refine ⟨by linarith, i2, i3, i4, i5, i6, ?_, fun _ => hchain⟩
    intro j hj hjne
    have hjne2 : j ∉ es := fun h => hjne (by simp [h])
    have hjnee : ¬ e = j := fun h => hjne (by simp [h])
    rw [i7 j hj hjne2, hst2eq]
    rw [show (st.1.set (donorIdx data st.1 st.2) e,
        st.2.set e (some (data.getD (donorIdx data st.1 st.2) []))).2 =
          st.2.set e (some (data.getD (donorIdx data st.1 st.2) []))
        from rfl]
    rw [getD_set_ne st.2 none _ hjnee]

lemma computeCentroids_getD (data : List Point) (a : List ℕ) {W j : ℕ}
    (hj : j < W) :
    (computeCentroids data a W).getD j none =
      if membersData data a j = [] then none
      else some (centroidOf (membersData data a j)) := by
  unfold computeCentroids
  rw [List.getD_eq_getElem _ _ (by simpa using hj), List.getElem_map]
  simp only [List.getElem_range]

lemma membersData_elem {data : List Point} {a : List ℕ} {j : ℕ}
    (hlen : a.length = data.length) :
    ∀ p ∈ membersData data a j,
      ∃ i < data.length, a.getD i 0 = j ∧ data.getD i [] = p := by
  intro p hp
  unfold membersData at hp
  obtain ⟨⟨u, v⟩, huv, hval⟩ := List.mem_filterMap.mp hp
  obtain ⟨k, hk, hkval⟩ := List.mem_iff_getElem.mp huv
  rw [List.getElem_zip] at hkval
  have hklen : k < data.length := by
    rw [List.length_zip] at hk
    omega
  by_cases hv : v = j
  · have hka : k < a.length := by omega
    refine ⟨k, hklen, ?_, ?_⟩
    · have : a[k] = v := by
        have := congrArg Prod.snd hkval
        simpa using this
      rw [List.getD_eq_getElem a 0 (by omega), this, hv]
    · have hu : data[k] = u := by
        have := congrArg Prod.fst hkval
        simpa using this
      have hpv : u = p := by
        simp only [hv, if_pos rfl] at hval
        injection hval
      rw [List.getD_eq_getElem data [] hklen, hu, hpv]
  · simp [hv] at hval

lemma centroidOf_length_dim {data : List Point} {a : List ℕ} {j dim : ℕ}
    (hdim : ∀ p ∈ data, p.length = dim)
    (hne : membersData data a j ≠ []) :
    (centroidOf (membersData data a j)).length = dim :=
  length_centroidOf hne
    (fun p hp => hdim p (membersData_subset p hp))

set_option maxHeartbeats 1000000 in
lemma handleEmpties_spec (data : List Point) (W dim : ℕ) (a : List ℕ)
    (hn : 0 < data.length) (hdim : ∀ p ∈ data, p.length = dim)
    (hlen : a.length = data.length)
    (hids : ∀ i < data.length, a.getD i 0 < W) :
    costJ data (handleEmpties data a (computeCentroids data a W)).2
      (handleEmpties data a (computeCentroids data a W)).1 ≤
      potential W data a ∧
    (handleEmpties data a (computeCentroids data a W)).1.length =
      data.length ∧
    (handleEmpties data a (computeCentroids data a W)).2.length = W ∧
    (∀ i < data.length,
      (handleEmpties data a (computeCentroids data a W)).1.getD i 0 < W) ∧
    (∀ j < W, ∀ p : Point,
      (handleEmpties data a (computeCentroids data a W)).2.getD j none =
        some p → p.length = dim) ∧
    (∀ j < W,
      (handleEmpties data a (computeCentroids data a W)).2.getD j none ≠
        none) ∧
    (∀ j < W, membersData data a j ≠ [] →
      (handleEmpties data a (computeCentroids data a W)).2.getD j none =
        (computeCentroids data a W).getD j none) ∧
    ((∃ j < W, membersData data a j = []) →
      costJ data (handleEmpties data a (computeCentroids data a W)).2
        (handleEmpties data a (computeCentroids data a W)).1 ≤
        potential W data a -
          sqEuclid (data.getD (donorIdx data a (computeCentroids data a W)) [])
            (centD (computeCentroids data a W)
              (maxVarIdx data a (computeCentroids data a W)))) := by
  have hclen : (computeCentroids data a W).length = W :=
    computeCentroids_length data a W
  have hmemes : ∀ e, e ∈ (List.range (computeCentroids data a W).length).filter
      (fun j => decide ((computeCentroids data a W).getD j none = none)) ↔
      (e < W ∧ membersData data a e = []) := by
    intro e
    rw [List.mem_filter, List.mem_range, hclen]
    constructor
    · intro ⟨h1, h2⟩
      rw [decide_eq_true_eq, computeCentroids_getD data a h1] at h2
      refine ⟨h1, ?_⟩
      by_contra hne
      rw [if_neg hne] at h2
      cases h2
    · intro ⟨h1, h2⟩
      refine ⟨h1, ?_⟩
      rw [decide_eq_true_eq, computeCentroids_getD data a h1, if_pos h2]
  have hfold := donation_fold data W dim hn hdim
    ((List.range (computeCentroids data a W).length).filter
      (fun j => decide ((computeCentroids data a W).getD j none = none)))
    (a, computeCentroids data a W) hlen hclen hids
    (by
      intro j hj p hp
      rw [computeCentroids_getD data a hj] at hp
      by_cases hne : membersData data a j = []
      · rw [if_pos hne] at hp
        cases hp
      · rw [if_neg hne] at hp
        have : centroidOf (membersData data a j) = p := by injection hp
        rw [← this]
        exact centroidOf_length_dim hdim hne)
    (by
      intro e he
      obtain ⟨h1, h2⟩ := (hmemes e).mp he
      refine ⟨h1, ?_⟩
      intro i hi hie
      exact (List.ne_nil_of_mem
        (membersData_getD_mem hlen hi hie)) h2)
    ((List.nodup_range _).filter _)
    (by
      intro j hj hnone
      exact (hmemes j).mpr ⟨hj, by
        rw [computeCentroids_getD data a hj] at hnone
        by_contra hne
        rw [if_neg hne] at hnone
        cases hnone⟩)
  obtain ⟨f1, f2, f3, f4, f5, f6, f7, f8⟩ := hfold
  have hheq : handleEmpties data a (computeCentroids data a W) =
      ((List.range (computeCentroids data a W).length).filter
        (fun j => decide ((computeCentroids data a W).getD j none = none))).foldl
        (donateOne data) (a, computeCentroids data a W) := rfl
  rw [hheq]
  refine ⟨f1, f2, f3, f4, f5, f6, ?_, ?_⟩
  · intro j hj hne
    apply f7 j hj
    intro hmem
    exact hne ((hmemes j).mp hmem).2
  · intro ⟨j, hj, hempty⟩
    exact f8 (List.ne_nil_of_mem ((hmemes j).mpr ⟨hj, hempty⟩))

lemma stepA_eq_reassign_fin (W : ℕ) (data : List Point) (a : List ℕ) :
    stepA W data a =
      reassignAll data
        (handleEmpties data a (computeCentroids data a W)).2 := rfl

lemma stepA_getD_lt (W : ℕ) (data : List Point) (a : List ℕ) (hW : 0 < W) :
    ∀ i < data.length, (stepA W data a).getD i 0 < W := by
  intro i hi
  have hilen : i < (stepA W data a).length := by
    rw [stepA_length]
    exact hi
  rw [List.getD_eq_getElem _ _ hilen]
  exact stepA_lt W data a hW _ (List.getElem_mem _)

set_option maxHeartbeats 1000000 in
lemma potential_step_le_fin (data : List Point) (W dim : ℕ) (a : List ℕ)
    (hW : 0 < W) (hn : 0 < data.length)
    (hdim : ∀ p ∈ data, p.length = dim)
    (hlen : a.length = data.length)
    (hids : ∀ i < data.length, a.getD i 0 < W) :
    potential W data (stepA W data a) ≤
      costJ data (handleEmpties data a (computeCentroids data a W)).2
        (handleEmpties data a (computeCentroids data a W)).1 := by
  obtain ⟨_, _, c3, c4, c5, c6, _, _⟩ :=
    handleEmpties_spec data W dim a hn hdim hlen hids
  have hXdim : ∀ j < W, membersData data (stepA W data a) j ≠ [] →
      (centD (handleEmpties data a (computeCentroids data a W)).2 j).length =
        dim := by
    intro j hj _
    cases hslot : (handleEmpties data a (computeCentroids data a W)).2.getD
        j none with
    | none => exact absurd hslot (c6 j hj)
    | some p =>
      unfold centD
      rw [hslot]
      exact c5 j hj p hslot
  have h1 : potential W data (stepA W data a) ≤
      costJ data (handleEmpties data a (computeCentroids data a W)).2
        (stepA W data a) :=
    costJ_centroid_le data (stepA W data a) W dim _
      (by rw [stepA_length]) (stepA_getD_lt W data a hW) hdim hXdim
  have h2 : costJ data (handleEmpties data a (computeCentroids data a W)).2
      (stepA W data a) ≤
      costJ data (handleEmpties data a (computeCentroids data a W)).2
        (handleEmpties data a (computeCentroids data a W)).1 := by
    rw [stepA_eq_reassign_fin]
    apply costJ_reassign_le
    · rw [c3]
      exact hW
    · intro i hi
      rw [c3]
      exact c4 i hi
  linarith

lemma potential_step_le (data : List Point) (W dim : ℕ) (a : List ℕ)
    (hW : 0 < W) (hn : 0 < data.length)
    (hdim : ∀ p ∈ data, p.length = dim)
    (hlen : a.length = data.length)
    (hids : ∀ i < data.length, a.getD i 0 < W) :
    potential W data (stepA W data a) ≤ potential W data a := by
  obtain ⟨c1, _, _, _, _, _, _, _⟩ :=
    handleEmpties_spec data W dim a hn hdim hlen hids
  have := potential_step_le_fin data W dim a hW hn hdim hlen hids
  linarith

lemma potential_nonneg (W : ℕ) (data : List Point) (a : List ℕ) :
    0 ≤ potential W data a :=
  costJ_nonneg data _ a

lemma handleEmpties_of_noEmpty (data : List Point) (a : List ℕ) (W : ℕ)
    (hne : ∀ j < W, membersData data a j ≠ []) :
    handleEmpties data a (computeCentroids data a W) =
      (a, computeCentroids data a W) := by
  unfold handleEmpties
  have hnil : (List.range (computeCentroids data a W).length).filter
      (fun j => decide ((computeCentroids data a W).getD j none = none)) =
      [] := by
    rw [List.filter_eq_nil_iff]
    intro j hj
    rw [List.mem_range, computeCentroids_length] at hj
    simp only [decide_eq_true_eq]
    rw [computeCentroids_getD data a hj, if_neg (hne j hj)]
    intro h
    cases h
  rw [hnil]
  rfl

lemma stepA_of_noEmpty (data : List Point) (a : List ℕ) (W : ℕ)
    (hne : ∀ j < W, membersData data a j ≠ []) :
    stepA W data a = reassignAll data (computeCentroids data a W) := by
  rw [stepA_eq_reassign_fin, handleEmpties_of_noEmpty data a W hne]

set_option maxHeartbeats 1000000 in
lemma step_pointwise_le (data : List Point) (W dim : ℕ) (a : List ℕ)
    (hW : 0 < W) (hn : 0 < data.length)
    (hdim : ∀ p ∈ data, p.length = dim)
    (hlen : a.length = data.length)
    (hids : ∀ i < data.length, a.getD i 0 < W)
    (hzero : potential W data a = 0) :
    ∀ i < data.length, (stepA W data a).getD i 0 ≤ a.getD i 0 := by
  obtain ⟨_, _, c3, _, _, _, c7, _⟩ :=
    handleEmpties_spec data W dim a hn hdim hlen hids
  intro i hi
  have hzero2 : ∑ i ∈ Finset.range data.length,
      sqEuclid (data.getD i [])
        (centD (computeCentroids data a W) (a.getD i 0)) = 0 := hzero
  have hterms := (Finset.sum_eq_zero_iff_of_nonneg
    (fun i2 _ => sqEuclid_nonneg _ _)).mp hzero2 i (Finset.mem_range.mpr hi)
  have hmem_ne : membersData data a (a.getD i 0) ≠ [] :=
    List.ne_nil_of_mem (membersData_getD_mem hlen hi rfl)
  have hstable := c7 (a.getD i 0) (hids i hi) hmem_ne
  have hcent_eq :
      centD (handleEmpties data a (computeCentroids data a W)).2
        (a.getD i 0) =
      centD (computeCentroids data a W) (a.getD i 0) := by
    unfold centD
    rw [hstable]
  have ha' : (stepA W data a).getD i 0 =
      argminIdx (fun j => sqEuclid (data.getD i [])
        (centD (handleEmpties data a (computeCentroids data a W)).2 j))
        W := by
    rw [stepA_eq_reassign_fin, reassignAll_getD data _ hi, c3]
  obtain ⟨hmlt, hmin, hstrict⟩ := argminIdx_spec
    (fun j => sqEuclid (data.getD i [])
      (centD (handleEmpties data a (computeCentroids data a W)).2 j)) W hW
  by_contra hgt
  push_neg at hgt
  rw [ha'] at hgt
  have hstrict2 := hstrict (a.getD i 0) hgt
  have hfa : sqEuclid (data.getD i [])
      (centD (handleEmpties data a (computeCentroids data a W)).2
        (a.getD i 0)) = 0 := by
    rw [hcent_eq]
    exact hterms
  rw [hfa] at hstrict2
  have := sqEuclid_nonneg (data.getD i [])
    (centD (handleEmpties data a (computeCentroids data a W)).2
      (argminIdx (fun j => sqEuclid (data.getD i [])
        (centD (handleEmpties data a (computeCentroids data a W)).2 j)) W))
  linarith

set_option maxHeartbeats 1000000 in
lemma potential_zero_of_empty (data : List Point) (W dim : ℕ) (a : List ℕ)
    (hW : 0 < W) (hn : 0 < data.length)
    (hdim : ∀ p ∈ data, p.length = dim)
    (hlen : a.length = data.length)
    (hids : ∀ i < data.length, a.getD i 0 < W)
    (hempty : ∃ j < W, membersData data a j = [])
    (heq : potential W data (stepA W data a) = potential W data a) :
    potential W data a = 0 := by
  obtain ⟨c1, _, _, _, _, _, _, c8⟩ :=
    handleEmpties_spec data W dim a hn hdim hlen hids
  have h1 := potential_step_le_fin data W dim a hW hn hdim hlen hids
  have h2 := c8 hempty
  have hdrop_nn := sqEuclid_nonneg
    (data.getD (donorIdx data a (computeCentroids data a W)) [])
    (centD (computeCentroids data a W)
      (maxVarIdx data a (computeCentroids data a W)))
  have hdrop0 : sqEuclid
      (data.getD (donorIdx data a (computeCentroids data a W)) [])
      (centD (computeCentroids data a W)
        (maxVarIdx data a (computeCentroids data a W))) = 0 := by
    linarith
  have hidsc : ∀ i < data.length,
      a.getD i 0 < (computeCentroids data a W).length := by
    intro i hi
    rw [computeCentroids_length]
    exact hids i hi
  obtain ⟨_, _, hdonor_max⟩ :=
    donorIdx_spec data a (computeCentroids data a W) hlen hn hidsc
  obtain ⟨hblt, hbne, hbmax⟩ :=
    maxVarIdx_spec data a (computeCentroids data a W) hlen hn hidsc
  have hvar_b0 : clusterVar data a (computeCentroids data a W)
      (maxVarIdx data a (computeCentroids data a W)) = 0 := by
    have hall : ∀ x ∈ (membersData data a
        (maxVarIdx data a (computeCentroids data a W))).map
          (fun p => sqEuclid p (centD (computeCentroids data a W)
            (maxVarIdx data a (computeCentroids data a W)))), x = 0 := by
      intro x hx
      obtain ⟨p, hp, rfl⟩ := List.mem_map.mp hx
      obtain ⟨i2, hi2, hasg2, hpd⟩ := membersData_elem hlen p hp
      have hle := hdonor_max i2 hi2 hasg2
      rw [hpd] at hle
      rw [hdrop0] at hle
      have := sqEuclid_nonneg p (centD (computeCentroids data a W)
        (maxVarIdx data a (computeCentroids data a W)))
      linarith
    simp only [clusterVar]
    rw [List.sum_eq_zero hall]
    simp
  have hvar_all : ∀ j < W, membersData data a j ≠ [] →
      ((membersData data a j).map
        (fun p => sqEuclid p (centD (computeCentroids data a W) j))).sum =
        0 := by
    intro j hj hne
    have h3 := hbmax j (by rw [computeCentroids_length]; exact hj) hne
    have h4 := clusterVar_nonneg data a (computeCentroids data a W) j
    have hvj : clusterVar data a (computeCentroids data a W) j = 0 := by
      rw [hvar_b0] at h3
      linarith
    unfold clusterVar at hvj
    have hlenne : ((membersData data a j).length : ℚ) ≠ 0 := by
      have := List.length_pos.mpr hne
      exact_mod_cast Nat.pos_iff_ne_zero.mp this
    field_simp at hvj
    exact hvj
  show ∑ i ∈ Finset.range data.length,
      sqEuclid (data.getD i [])
        (centD (computeCentroids data a W) (a.getD i 0)) = 0
  apply Finset.sum_eq_zero
  intro i hi2
  rw [Finset.mem_range] at hi2
  have hne_i : membersData data a (a.getD i 0) ≠ [] :=
    List.ne_nil_of_mem (membersData_getD_mem hlen hi2 rfl)
  have hsum0 := hvar_all (a.getD i 0) (hids i hi2) hne_i
  have hnonneg : ∀ x ∈ (membersData data a (a.getD i 0)).map
      (fun p => sqEuclid p (centD (computeCentroids data a W)
        (a.getD i 0))), 0 ≤ x := by
    intro x hx
    obtain ⟨p, _, rfl⟩ := List.mem_map.mp hx
    exact sqEuclid_nonneg _ _
  exact list_sum_eq_zero hnonneg hsum0 _
    (List.mem_map.mpr ⟨data.getD i [],
      membersData_getD_mem hlen hi2 rfl, rfl⟩)

set_option maxHeartbeats 2000000 in
lemma step_fix_of_stable (data : List Point) (W dim : ℕ) (a : List ℕ)
    (hW : 0 < W) (hn : 0 < data.length)
    (hdim : ∀ p ∈ data, p.length = dim)
    (hlen : a.length = data.length)
    (hids : ∀ i < data.length, a.getD i 0 < W)
    (hne1 : ∀ j < W, membersData data a j ≠ [])
    (hne2 : ∀ j < W, membersData data (stepA W data a) j ≠ [])
    (heq : potential W data (stepA W data a) = potential W data a) :
    stepA W data (stepA W data a) = stepA W data a := by
  have hstep : stepA W data a =
      reassignAll data (computeCentroids data a W) :=
    stepA_of_noEmpty data a W hne1
  have ha'len : (stepA W data a).length = data.length := stepA_length _ _ _
  have ha'ids := stepA_getD_lt W data a hW
  have hclen : (computeCentroids data a W).length = W :=
    computeCentroids_length _ _ _
  have hcadim : ∀ j < W,
      (centD (computeCentroids data a W) j).length = dim := by
    intro j hj
    rw [centD_computeCentroids hj (hne1 j hj)]
    exact centroidOf_length_dim hdim (hne1 j hj)
  have h1 : potential W data (stepA W data a) ≤
      costJ data (computeCentroids data a W) (stepA W data a) :=
    costJ_centroid_le data (stepA W data a) W dim _ ha'len ha'ids hdim
      (fun j hj _ => hcadim j hj)
  have h2 : costJ data (computeCentroids data a W) (stepA W data a) ≤
      potential W data a := by
    have : costJ data (computeCentroids data a W) (stepA W data a) ≤
        costJ data (computeCentroids data a W) a := by
      rw [hstep]
      exact costJ_reassign_le data _ a (by rw [hclen]; exact hW)
        (by intro i hi; rw [hclen]; exact hids i hi)
    exact this
  have htight2 : costJ data (computeCentroids data (stepA W data a) W)
      (stepA W data a) =
      costJ data (computeCentroids data a W) (stepA W data a) := by
    have h3 : costJ data (computeCentroids data a W) (stepA W data a) ≤
        potential W data (stepA W data a) := by
      rw [heq]
      exact h2
    exact le_antisymm h1 h3
  rw [costJ_fiber data _ _ W ha'ids,
    costJ_fiber data (computeCentroids data a W) _ W ha'ids] at htight2
  have hperle : ∀ j ∈ Finset.range W,
      ∑ i ∈ (Finset.range data.length).filter
        (fun i => (stepA W data a).getD i 0 = j),
        sqEuclid (data.getD i [])
          (centD (computeCentroids data (stepA W data a) W) j) ≤
      ∑ i ∈ (Finset.range data.length).filter
        (fun i => (stepA W data a).getD i 0 = j),
        sqEuclid (data.getD i [])
          (centD (computeCentroids data a W) j) := by
    intro j hj
    rw [Finset.mem_range] at hj
    rw [fiber_sum_members data _ j _ ha'len,
      fiber_sum_members data _ j _ ha'len,
      centD_computeCentroids hj (hne2 j hj)]
    have hmdim : ∀ p ∈ membersData data (stepA W data a) j,
        p.length = dim :=
      fun p hp => hdim p (membersData_subset p hp)
    have hid := centroid_min_identity (hne2 j hj) hmdim
      (centD (computeCentroids data a W) j) (hcadim j hj)
    have hnn : 0 ≤ ((membersData data (stepA W data a) j).length : ℚ) *
        sqEuclid (centroidOf (membersData data (stepA W data a) j))
          (centD (computeCentroids data a W) j) :=
      mul_nonneg (by positivity) (sqEuclid_nonneg _ _)
    linarith
  have hpereq := (Finset.sum_eq_sum_iff_of_le hperle).mp htight2
  have hcent_eq : ∀ j < W,
      centroidOf (membersData data (stepA W data a) j) =
        centD (computeCentroids data a W) j := by
    intro j hj
    have hjeq := hpereq j (Finset.mem_range.mpr hj)
    rw [fiber_sum_members data _ j _ ha'len,
      fiber_sum_members data _ j _ ha'len,
      centD_computeCentroids hj (hne2 j hj)] at hjeq
    have hmdim : ∀ p ∈ membersData data (stepA W data a) j,
        p.length = dim :=
      fun p hp => hdim p (membersData_subset p hp)
    have hid := centroid_min_identity (hne2 j hj) hmdim
      (centD (computeCentroids data a W) j) (hcadim j hj)
    have hlenpos :
        0 < ((membersData data (stepA W data a) j).length : ℚ) := by
      have := List.length_pos.mpr (hne2 j hj)
      exact_mod_cast this
    have hsq0 : sqEuclid (centroidOf (membersData data (stepA W data a) j))
        (centD (computeCentroids data a W) j) = 0 := by
      have hmul : ((membersData data (stepA W data a) j).length : ℚ) *
          sqEuclid (centroidOf (membersData data (stepA W data a) j))
            (centD (computeCentroids data a W) j) = 0 := by
        linarith
      rcases mul_eq_zero.mp hmul with h | h
      · exact absurd h (by positivity)
      · exact h
    exact sqEuclid_eq_zero
      (length_centroidOf (hne2 j hj) hmdim) (hcadim j hj) hsq0
  have hceq : computeCentroids data (stepA W data a) W =
      computeCentroids data a W := by
    apply List.ext_getElem
    · rw [computeCentroids_length, computeCentroids_length]
    · intro j h1' h2'
      have hjW : j < W := by
        rw [computeCentroids_length] at h1'
        exact h1'
      rw [← List.getD_eq_getElem _ none h1', ← List.getD_eq_getElem _ none h2',
        computeCentroids_getD data _ hjW, computeCentroids_getD data a hjW,
        if_neg (hne2 j hjW), if_neg (hne1 j hjW)]
      congr 1
      rw [hcent_eq j hjW, centD_computeCentroids hjW (hne1 j hjW)]
  rw [stepA_of_noEmpty data (stepA W data a) W hne2, hceq, ← hstep]

lemma traj_valid (data : List Point) (W : ℕ) (a : List ℕ) (hW : 0 < W)
    (hlen : a.length = data.length)
    (hids : ∀ i < data.length, a.getD i 0 < W) :
    ∀ m : ℕ, ((stepA W data)^[m] a).length = data.length ∧
      (∀ i < data.length, ((stepA W data)^[m] a).getD i 0 < W) := by
  intro m
  induction m with
  | zero => exact ⟨hlen, hids⟩
  | succ m ih =>
    rw [Function.iterate_succ_apply']
    exact ⟨stepA_length _ _ _, stepA_getD_lt _ _ _ hW⟩

lemma potential_antitone (data : List Point) (W dim : ℕ) (a : List ℕ)
    (hW : 0 < W) (hn : 0 < data.length)
    (hdim : ∀ p ∈ data, p.length = dim)
    (hlen : a.length = data.length)
    (hids : ∀ i < data.length, a.getD i 0 < W) :
    ∀ k m : ℕ, k ≤ m →
      potential W data ((stepA W data)^[m] a) ≤
        potential W data ((stepA W data)^[k] a) := by
  intro k m hkm
  induction m with
  | zero =>
    have : k = 0 := by omega
    rw [this]
  | succ m ih =>
    rcases Nat.lt_or_ge k (m + 1) with h | h
    · have h2 : k ≤ m := by omega
      have h3 := ih h2
      obtain ⟨hvlen, hvids⟩ := traj_valid data W a hW hlen hids m
      have h4 := potential_step_le data W dim ((stepA W data)^[m] a) hW hn
        hdim hvlen hvids
      rw [Function.iterate_succ_apply']
      linarith
    · have : k = m + 1 := by omega
      rw [this]

lemma traj_repeat (data : List Point) (W : ℕ) (a : List ℕ) (hW : 0 < W)
    (hn : 0 < data.length)
    (hlen : a.length = data.length)
    (hids : ∀ i < data.length, a.getD i 0 < W) :
    ∃ k l : ℕ, k < l ∧ l ≤ W ^ data.length ∧
      (stepA W data)^[k] a = (stepA W data)^[l] a := by
  have hmaps : ∀ m ∈ Finset.range (W ^ data.length + 1),
      (fun i : Fin data.length =>
        (⟨((stepA W data)^[m] a).getD i.val 0,
          (traj_valid data W a hW hlen hids m).2 i.val i.isLt⟩ : Fin W)) ∈
        (Finset.univ : Finset (Fin data.length → Fin W)) :=
    fun m _ => Finset.mem_univ _
  obtain ⟨x, hx, y, hy, hxy, hfeq⟩ :=
    Finset.exists_ne_map_eq_of_card_lt_of_maps_to (by
      rw [Finset.card_range, Finset.card_univ, Fintype.card_fun,
        Fintype.card_fin, Fintype.card_fin]
      omega) hmaps
  have hlists : ∀ u v : ℕ,
      ((fun i : Fin data.length =>
        (⟨((stepA W data)^[u] a).getD i.val 0,
          (traj_valid data W a hW hlen hids u).2 i.val i.isLt⟩ : Fin W)) =
       (fun i : Fin data.length =>
        (⟨((stepA W data)^[v] a).getD i.val 0,
          (traj_valid data W a hW hlen hids v).2 i.val i.isLt⟩ : Fin W))) →
      (stepA W data)^[u] a = (stepA W data)^[v] a := by
    intro u v hf
    apply List.ext_getElem
    · rw [(traj_valid data W a hW hlen hids u).1,
        (traj_valid data W a hW hlen hids v).1]
    · intro i hi1 hi2
      have hilen : i < data.length := by
        rw [(traj_valid data W a hW hlen hids u).1] at hi1
        exact hi1
      have := congrFun hf ⟨i, hilen⟩
      have hval := congrArg Fin.val this
      simp only at hval
      rw [← List.getD_eq_getElem _ 0 hi1, ← List.getD_eq_getElem _ 0 hi2]
      exact hval
  rw [Finset.mem_range] at hx hy
  rcases Nat.lt_or_ge x y with h | h
  · exact ⟨x, y, h, by omega, hlists x y hfeq⟩
  · have hyx : y < x := by
      rcases Nat.lt_or_ge y x with h2 | h2
      · exact h2
      · exact absurd (by omega : x = y) hxy
    exact ⟨y, x, hyx, by omega, hlists y x hfeq.symm⟩

lemma sumIdx_eq (b : List ℕ) (n : ℕ) (hlen : b.length = n) :
    sumIdx b = ∑ i ∈ Finset.range n, b.getD i 0 := by
  unfold sumIdx
  rw [hlen]

lemma lists_eq_of_pointwise_le_sum_eq {b c : List ℕ} {n : ℕ}
    (hb : b.length = n) (hc : c.length = n)
    (hle : ∀ i < n, b.getD i 0 ≤ c.getD i 0)
    (hsum : sumIdx b = sumIdx c) : b = c := by
  have hsum2 : ∑ i ∈ Finset.range n, b.getD i 0 =
      ∑ i ∈ Finset.range n, c.getD i 0 := by
    rw [← sumIdx_eq b n hb, ← sumIdx_eq c n hc, hsum]
  have hall := (Finset.sum_eq_sum_iff_of_le
    (fun i hi => hle i (Finset.mem_range.mp hi))).mp hsum2
  apply List.ext_getElem (by omega)
  intro i hi1 hi2
  have hin : i < n := by omega
  have := hall i (Finset.mem_range.mpr hin)
  rw [← List.getD_eq_getElem b 0 hi1, ← List.getD_eq_getElem c 0 hi2]
  exact this

set_option maxHeartbeats 2000000 in
lemma stepA_reaches_fix (data : List Point) (W dim : ℕ) (a : List ℕ)
    (hW : 0 < W) (hn : 0 < data.length)
    (hdim : ∀ p ∈ data, p.length = dim)
    (hlen : a.length = data.length)
    (hids : ∀ i < data.length, a.getD i 0 < W) :
    ∃ m ≤ W ^ data.length + 1,
      stepA W data ((stepA W data)^[m] a) = (stepA W data)^[m] a := by
  obtain ⟨k, l, hkl, hlN, hrep⟩ := traj_repeat data W a hW hn hlen hids
  have hPhiconst : ∀ m, k ≤ m → m ≤ l →
      potential W data ((stepA W data)^[m] a) =
        potential W data ((stepA W data)^[k] a) := by
    intro m h1 h2
    have hmk := potential_antitone data W dim a hW hn hdim hlen hids k m h1
    have hlm := potential_antitone data W dim a hW hn hdim hlen hids m l h2
    have hlk : potential W data ((stepA W data)^[l] a) =
        potential W data ((stepA W data)^[k] a) := by
      rw [← hrep]
    linarith
  by_cases hcase : ∃ m, k ≤ m ∧ m < l ∧
      ∃ j < W, membersData data ((stepA W data)^[m] a) j = []
  · obtain ⟨m0, hm0k, hm0l, hm0empty⟩ := hcase
    have hvalid_m0 := traj_valid data W a hW hlen hids m0
    have heqm0 : potential W data
        (stepA W data ((stepA W data)^[m0] a)) =
        potential W data ((stepA W data)^[m0] a) := by
      rw [← Function.iterate_succ_apply' (stepA W data) m0 a]
      rw [hPhiconst (m0 + 1) (by omega) (by omega), hPhiconst m0 hm0k (by omega)]
    have hzero_m0 : potential W data ((stepA W data)^[m0] a) = 0 :=
      potential_zero_of_empty data W dim _ hW hn hdim hvalid_m0.1
        hvalid_m0.2 hm0empty heqm0
    have hzero_all : ∀ m, k ≤ m → m ≤ l →
        potential W data ((stepA W data)^[m] a) = 0 := by
      intro m h1 h2
      rw [hPhiconst m h1 h2, ← hPhiconst m0 hm0k (le_of_lt hm0l)]
      exact hzero_m0
    have hptle : ∀ m, k ≤ m → m < l → ∀ i < data.length,
        ((stepA W data)^[m + 1] a).getD i 0 ≤
          ((stepA W data)^[m] a).getD i 0 := by
      intro m h1 h2 i hi
      have hv := traj_valid data W a hW hlen hids m
      have hp := step_pointwise_le data W dim _ hW hn hdim hv.1 hv.2
        (hzero_all m h1 (by omega)) i hi
      rw [← Function.iterate_succ_apply' (stepA W data) m a] at hp
      exact hp
    have hsumle : ∀ m, k ≤ m → m < l →
        sumIdx ((stepA W data)^[m + 1] a) ≤
          sumIdx ((stepA W data)^[m] a) := by
      intro m h1 h2
      rw [sumIdx_eq _ data.length (traj_valid data W a hW hlen hids (m+1)).1,
        sumIdx_eq _ data.length (traj_valid data W a hW hlen hids m).1]
      exact Finset.sum_le_sum
        (fun i hi => hptle m h1 h2 i (Finset.mem_range.mp hi))
    have hanti : ∀ m2, k + 1 ≤ m2 → m2 ≤ l →
        sumIdx ((stepA W data)^[m2] a) ≤
          sumIdx ((stepA W data)^[k + 1] a) := by
      intro m2 h1 h2
      induction m2 with
      | zero => omega
      | succ m ih =>
        rcases Nat.lt_or_ge m (k + 1) with h3 | h3
        · have : m + 1 = k + 1 := by omega
          rw [this]
        · have h4 := ih (by omega) (by omega)
          have h5 := hsumle m (by omega) (by omega)
          omega
    have hsum_eq : sumIdx ((stepA W data)^[k + 1] a) =
        sumIdx ((stepA W data)^[k] a) := by
      have h1 : sumIdx ((stepA W data)^[l] a) ≤
          sumIdx ((stepA W data)^[k + 1] a) := hanti l (by omega) (le_refl _)
      have h2 : sumIdx ((stepA W data)^[k + 1] a) ≤
          sumIdx ((stepA W data)^[k] a) := hsumle k (le_refl _) hkl
      have h3 : sumIdx ((stepA W data)^[l] a) =
          sumIdx ((stepA W data)^[k] a) := by rw [← hrep]
      omega
    have hlisteq := lists_eq_of_pointwise_le_sum_eq
      (traj_valid data W a hW hlen hids (k + 1)).1
      (traj_valid data W a hW hlen hids k).1
      (hptle k (le_refl _) hkl) hsum_eq
    refine ⟨k, by omega, ?_⟩
    rw [← Function.iterate_succ_apply' (stepA W data) k a]
    exact hlisteq
  · push_neg at hcase
    by_cases hl1 : l = k + 1
    · refine ⟨k, by omega, ?_⟩
      rw [← Function.iterate_succ_apply' (stepA W data) k a]
      have h5 : (stepA W data)^[k + 1] a = (stepA W data)^[k] a := by
        rw [← hl1]
        exact hrep.symm
      exact h5
    · have hl2 : k + 2 ≤ l := by omega
      have hvk := traj_valid data W a hW hlen hids k
      have hne2' : ∀ j < W,
          membersData data (stepA W data ((stepA W data)^[k] a)) j ≠ [] := by
        have := hcase (k + 1) (by omega) (by omega)
        rw [Function.iterate_succ_apply'] at this
        exact this
      have heqk : potential W data
          (stepA W data ((stepA W data)^[k] a)) =
          potential W data ((stepA W data)^[k] a) := by
        rw [← Function.iterate_succ_apply' (stepA W data) k a]
        exact hPhiconst (k + 1) (by omega) (by omega)
      have hfix := step_fix_of_stable data W dim ((stepA W data)^[k] a)
        hW hn hdim hvk.1 hvk.2 (hcase k (le_refl _) (by omega)) hne2' heqk
      refine ⟨k + 1, by omega, ?_⟩
      rw [Function.iterate_succ_apply']
      exact hfix

lemma lloydLoop_conv_of_fix (W : ℕ) (data : List Point) :
    ∀ (fuel : ℕ) (a : List ℕ) (m : ℕ), m < fuel →
      stepA W data ((stepA W data)^[m] a) = (stepA W data)^[m] a →
      (lloydLoop W data fuel a).2.1 = true := by
  intro fuel
  induction fuel with
  | zero => intro a m hm _; omega
  | succ fuel ih =>
    intro a m hm hfix
    by_cases hc : stepA W data a = a
    · simp only [lloydLoop, if_pos hc]
    · simp only [lloydLoop, if_neg hc]
      cases m with
      | zero =>
        simp only [Function.iterate_zero_apply] at hfix
        exact absurd hfix hc
      | succ m2 =>
        apply ih (stepA W data a) m2 (by omega)
        rw [Function.iterate_succ_apply] at hfix
        exact hfix

lemma pow_fuel_bound (W n : ℕ) (hW : 0 < W) :
    W ^ n + 2 ≤ (W + 2) ^ (n + 2) := by
  have h1 : W ^ n ≤ (W + 2) ^ n := Nat.pow_le_pow_left (by omega) n
  have h2 : (W + 2) ^ (n + 2) = (W + 2) ^ n * (W + 2) ^ 2 := by
    rw [pow_add]
  have h3 : 1 ≤ (W + 2) ^ n := Nat.one_le_pow n _ (by omega)
  have h4 : (3 : ℕ) ^ 2 ≤ (W + 2) ^ 2 := Nat.pow_le_pow_left (by omega) 2
  have h5 : (W + 2) ^ n * 9 ≤ (W + 2) ^ n * (W + 2) ^ 2 :=
    Nat.mul_le_mul_left _ (by omega)
  omega

/-- Claim C2: termination with `maxIterations = 0`.  For every accepted
input whose points share one dimension, the modelled engine run in
unbounded mode exits through the no-change test: the run reports
convergence (it is never cut off by the internal fuel, which exceeds the
number of distinct assignment vectors), the loop output is a fixed point
of the iteration step, and more generally from any valid assignment vector
the iteration reaches a fixed point after finitely many steps — the loop
cannot run forever.  The proof is a descent argument: the clustering cost
never increases across an iteration, a cost-preserving iteration either
has stable centroids (and the next step repeats) or happens on a
zero-cost state (where assignment indices only ever decrease), and the
finite state space then forces a fixed point. -/
theorem c2_termination {M P E : Type} (km : KMeans M P E)
    (data : List Point) (numClusters : ℕ) (seed : List ℕ) (dim : ℕ)
    (r : ClusterResult)
    (hdim : ∀ p ∈ data, p.length = dim)
    (h0 : km.maxIterations = 0)
    (hf : 1 ≤ km.overclusteringFactor)
    (hok : clusterFull km data numClusters seed = Except.ok r) :
    r.converged = true ∧
    stepA r.workingClusters data r.loopOutput = r.loopOutput ∧
    (∀ a : List ℕ, a.length = data.length →
      (∀ i < data.length, a.getD i 0 < r.workingClusters) →
      ∃ m, stepA r.workingClusters data
        ((stepA r.workingClusters data)^[m] a) =
          (stepA r.workingClusters data)^[m] a) := by
  simp only [clusterFull] at hok
  split at hok
  · exact absurd hok (by simp)
  · rename_i hcond
    obtain rfl := Except.ok.inj hok
    have hk0 : numClusters ≠ 0 := fun h => hcond (Or.inl h)
    have hkn : numClusters ≤ data.length := by
      by_contra h
      exact hcond (Or.inr (Or.inl (by omega)))
    set W := workingClusters numClusters km.overclusteringFactor with hWdef
    set a0 := if seed = [] ∨ (numClusters < W ∧ ¬ (∀ j < W, j ∈ seed)) then
        roundRobinPartition data.length W
      else seed with ha0def
    have hW1 : 0 < W := lt_of_lt_of_le (Nat.pos_of_ne_zero hk0)
      (le_workingClusters hf)
    have hn : 0 < data.length := lt_of_lt_of_le
      (Nat.pos_of_ne_zero hk0) hkn
    have ha0facts : a0.length = data.length ∧
        ∀ i < data.length, a0.getD i 0 < W := by
      by_cases hbranch : seed = [] ∨
          (numClusters < W ∧ ¬ (∀ j < W, j ∈ seed))
      · rw [ha0def, if_pos hbranch]
        constructor
        · simp [roundRobinPartition]
        · intro i hi
          unfold roundRobinPartition
          rw [List.getD_eq_getElem _ _ (by simpa using hi),
            List.getElem_map, List.getElem_range]
          exact Nat.mod_lt _ hW1
      · have hseedne : seed ≠ [] := fun h => hbranch (Or.inl h)
        rw [ha0def, if_neg hbranch]
        have hseedlen : seed.length = data.length := by
          by_contra h
          exact hcond (Or.inr (Or.inr ⟨hseedne, Or.inl h⟩))
        refine ⟨hseedlen, ?_⟩
        intro i hi
        by_contra hge
        push_neg at hge
        apply hcond
        refine Or.inr (Or.inr ⟨hseedne, Or.inr ⟨seed.getD i 0, ?_, hge⟩⟩)
        rw [List.getD_eq_getElem seed 0 (by omega)]
        exact List.getElem_mem _
    obtain ⟨ha0len, ha0ids⟩ := ha0facts
    obtain ⟨m, hmle, hmfix⟩ :=
      stepA_reaches_fix data W dim a0 hW1 hn hdim ha0len ha0ids
    have hmlt : m < (W + 2) ^ (data.length + 2) := by
      have := pow_fuel_bound W data.length hW1
      omega
    have hconv := lloydLoop_conv_of_fix W data
      ((W + 2) ^ (data.length + 2)) a0 m hmlt hmfix
    refine ⟨hconv,
      lloydLoop_converged W data ((W + 2) ^ (data.length + 2)) a0 hconv, ?_⟩
    intro a halen haids
    obtain ⟨m2, _, hfix2⟩ :=
      stepA_reaches_fix data W dim a hW1 hn hdim halen haids
    exact ⟨m2, hfix2⟩

/-- Witness for C2 at a concrete input: an unbounded-mode run on two 1-D
points converges. -/
theorem c2_termination_witness :
    (∀ p ∈ [[(0 : ℚ)], [2]], p.length = 1) ∧
    kmUnbounded.maxIterations = 0 ∧
    (1 : ℚ) ≤ kmUnbounded.overclusteringFactor ∧
    clusterFull kmUnbounded [[(0 : ℚ)], [2]] 2 [] = Except.ok
      { assignments := [0, 1], loopOutput := [0, 1], converged := true,
        iterationsUsed := 1, mergesPerformed := 0, workingClusters := 2 } ∧
    ((true : Bool) = true ∧
     stepA 2 [[(0 : ℚ)], [2]] [0, 1] = [0, 1] ∧
     (∀ a : List ℕ, a.length = 2 → (∀ i < 2, a.getD i 0 < 2) →
       ∃ m, stepA 2 [[(0 : ℚ)], [2]]
         ((stepA 2 [[(0 : ℚ)], [2]])^[m] a) =
           (stepA 2 [[(0 : ℚ)], [2]])^[m] a)) := by
  have hok : clusterFull kmUnbounded [[(0 : ℚ)], [2]] 2 [] = Except.ok
      { assignments := [0, 1], loopOutput := [0, 1], converged := true,
        iterationsUsed := 1, mergesPerformed := 0, workingClusters := 2 } := by
    with_unfolding_all rfl
  refine ⟨by decide, rfl, by norm_num [kmUnbounded], hok, ?_⟩
  exact c2_termination kmUnbounded [[(0 : ℚ)], [2]] 2 [] 1 _
    (by decide) rfl (by norm_num [kmUnbounded]) hok

end KMeansSpec
